import Mathlib

/-! Generic iteration: `numeric_range` and `MyArray`.

A shallow embedding of the two programs of the repository

* `numeric-range-container-iterator/main.cpp`: the lazily evaluated numeric
  sequence `numeric_range<T, Increment>` with its input iterator and the three
  `range` factory overloads;
* `custom-container-iterator/main.cpp`: the owning array `MyArray<T>` with its
  forward iterator.

The element type `T` of `numeric_range` is instantiated with the mathematical
integers (`Int`).  A C++ object mutated through a pointer is modelled by
explicit state passing: every member function of `numeric_range::iterator`
takes the range it points to and returns the range it leaves behind.
-/

namespace NumericRange

/-! ## Faults -/

/-- The ways an operation can fail: a thrown `std::runtime_error` carrying its
`what()` message, or the dereference of a null `numeric_range*`. -/
inductive Fault where
  | runtime_error (what : String)
  | null_dereference
  deriving DecidableEq, Repr

deriving instance DecidableEq for Except

/-! ## Increment policies (`main.cpp` lines 43-61) -/

/-- The call operator `void operator()(T& x) const` of an increment policy,
returning the new value of `x`. -/
class Increment (I : Type) where
  call : I → Int → Int

/-- The policy `struct IncrementValue`, which has no data members. -/
structure IncrementValue where
  deriving DecidableEq, Repr

/-- The policy `struct IncrementBy`, holding `T delta`. -/
structure IncrementBy where
  delta : Int
  deriving DecidableEq, Repr

/-- `IncrementValue::operator()` performs `++x`. -/
instance : Increment IncrementValue where
  call _ x := x + 1

/-- `IncrementBy::operator()` performs `x += delta`. -/
instance : Increment IncrementBy where
  call s x := x + s.delta

/-! ## The range object (`main.cpp` lines 63-79, 154-161) -/

/-- The scoped enumeration `numeric_range::direction`. -/
inductive direction where
  | increasing
  | decreasing
  deriving DecidableEq, Repr

/-- The data members of `numeric_range<T, Increment>`. -/
structure numeric_range (I : Type) where
  current : Int
  final : Int
  inc : I
  dir : direction
  deriving DecidableEq, Repr

/-- The private member `bool at_end()`. -/
def numeric_range.at_end {I : Type} (r : numeric_range I) : Bool :=
  if r.dir = direction.increasing then
    decide (r.current ≥ r.final)
  else
    decide (r.current ≤ r.final)

/-- The constructor `numeric_range(T initial_, T final_)`; the policy is default
constructed, which for `IncrementValue` is its only value. -/
def numeric_range.ctor2 (initial_ final_ : Int) : numeric_range IncrementValue :=
  { current := initial_, final := final_, inc := {}, dir := direction.increasing }

/-- The constructor `numeric_range(T initial_, T final_, Increment inc_)`. -/
def numeric_range.ctor3 {I : Type} (initial_ final_ : Int) (inc_ : I) : numeric_range I :=
  { current := initial_, final := final_, inc := inc_, dir := direction.increasing }

/-- The constructor
`numeric_range(T initial_, T final_, Increment inc_, direction dir_)`. -/
def numeric_range.ctor4 {I : Type} (initial_ final_ : Int) (inc_ : I) (dir_ : direction) :
    numeric_range I :=
  { current := initial_, final := final_, inc := inc_, dir := dir_ }

/-! ## The iterator (`main.cpp` lines 83-151) -/

/-- The class `numeric_range::iterator`.  Its only data member is the pointer
`numeric_range* range`: `none` is `nullptr`, `some ()` is the address of the
range under traversal (the one passed alongside to every operation). -/
structure iterator where
  range : Option Unit
  deriving DecidableEq, Repr

/-- The private member `check_done()`: `if (range->at_end()) range = nullptr;`.
Both call sites run it on a non-null `range` only. -/
def iterator.check_done {I : Type} (it : iterator) (r : numeric_range I) : iterator :=
  if r.at_end then { range := none } else it

/-- The constructor `iterator(numeric_range* range_)`:
`range(range_) { if (range) check_done(); }`. -/
def iterator.ctor {I : Type} (range_ : Option Unit) (r : numeric_range I) : iterator :=
  match range_ with
  | none => { range := none }
  | some p => iterator.check_done { range := some p } r

/-- The dereference `T operator*() const { return range->current; }`. -/
def iterator.deref {I : Type} (it : iterator) (r : numeric_range I) : Except Fault Int :=
  match it.range with
  | none => Except.error Fault.null_dereference
  | some _ => Except.ok r.current

/-- The pre-increment `iterator& operator++()`.  The first component is the
iterator after the call, or the exception thrown; the second component is the
range as the call leaves it. -/
def iterator.preinc {I : Type} [Increment I] (it : iterator) (r : numeric_range I) :
    Except Fault iterator × numeric_range I :=
  match it.range with
  | none => (Except.error (Fault.runtime_error "Increment a past-the-end iterator"), r)
  | some _ =>
    let r1 : numeric_range I := { r with current := Increment.call r.inc r.current }
    (Except.ok (it.check_done r1), r1)

/-- The comparison `operator==`: `lhs.range == rhs.range`. -/
def iterator.eq (lhs rhs : iterator) : Bool :=
  decide (lhs.range = rhs.range)

/-- The comparison `operator!=`: `!(lhs == rhs)`. -/
def iterator.ne (lhs rhs : iterator) : Bool :=
  !(iterator.eq lhs rhs)

/-- The member `iterator begin() { return iterator(this); }`. -/
def numeric_range.begin {I : Type} (r : numeric_range I) : iterator :=
  iterator.ctor (some ()) r

/-- The member `iterator end() { return iterator(nullptr); }`. -/
def numeric_range.end_ {I : Type} (r : numeric_range I) : iterator :=
  iterator.ctor none r

/-! ## The factory functions (`main.cpp` lines 164-184) -/

/-- The overload `range(T from, T to)`. -/
def range2 (from_ to_ : Int) : Except Fault (numeric_range IncrementValue) :=
  if to_ < from_ then
    Except.error (Fault.runtime_error "Cannot count down ")
  else
    Except.ok (numeric_range.ctor2 from_ to_)

/-- The overload `range(T to)`: `return range(T(), std::move(to));`. -/
def range1 (to_ : Int) : Except Fault (numeric_range IncrementValue) :=
  range2 0 to_

/-- The overload `range(T from, T to, T delta)`. -/
def range3 (from_ to_ delta : Int) : Except Fault (numeric_range IncrementBy) :=
  if delta = 0 then
    Except.error (Fault.runtime_error "Step must be non-zero")
  else
    let dir : direction := if delta > 0 then direction.increasing else direction.decreasing
    Except.ok (numeric_range.ctor4 from_ to_ { delta := delta } dir)

/-! ## The range-based `for` loop of `main` (`main.cpp` lines 187-214) -/

/-- The statement `for (; it != last; ++it) { T x = *it; std::cout << x; }`,
returning the printed values in order.  `none` means the step budget ran out
before the loop ended. -/
def for_loop {I : Type} [Increment I] :
    Nat → iterator → iterator → numeric_range I → Option (Except Fault (List Int))
  | 0, _, _, _ => none
  | fuel + 1, it, last, r =>
    if iterator.ne it last then
      match it.deref r with
      | Except.error e => some (Except.error e)
      | Except.ok x =>
        match it.preinc r with
        | (Except.error e, _) => some (Except.error e)
        | (Except.ok it1, r1) =>
          match for_loop fuel it1 last r1 with
          | none => none
          | some (Except.error e) => some (Except.error e)
          | some (Except.ok xs) => some (Except.ok (x :: xs))
    else
      some (Except.ok [])

/-- The statement `for (T x : r) std::cout << x;`, which expands to
`auto b = r.begin(); auto e = r.end(); for (; b != e; ++b) { T x = *b; ... }`. -/
def range_for {I : Type} [Increment I] (fuel : Nat) (r : numeric_range I) :
    Option (Except Fault (List Int)) :=
  for_loop fuel r.begin r.end_ r

/-- The statement `for (T x : e) std::cout << x;` where the range expression
`e` may itself throw. -/
def range_for_expr {I : Type} [Increment I] (fuel : Nat)
    (e : Except Fault (numeric_range I)) : Option (Except Fault (List Int)) :=
  match e with
  | Except.error err => some (Except.error err)
  | Except.ok r => range_for fuel r

/-! ## Repeated advance and post-increment (`main.cpp` lines 92-100, 130-134, 223-227) -/

/-- The statement `++it;` executed `k` times in a row, stopping at the first
exception. -/
def iterator.advance {I : Type} [Increment I] :
    Nat → iterator → numeric_range I → Except Fault iterator × numeric_range I
  | 0, it, r => (Except.ok it, r)
  | k + 1, it, r =>
    match it.preinc r with
    | (Except.error e, r1) => (Except.error e, r1)
    | (Except.ok it1, r1) => iterator.advance k it1 r1

/-- The class `iterator::postinc_return`, holding `T value`. -/
structure postinc_return where
  value : Int
  deriving DecidableEq, Repr

/-- The member `T operator*()` of `postinc_return`: `return std::move(value);`. -/
def postinc_return.deref (p : postinc_return) : Int :=
  p.value

/-- The post-increment `postinc_return operator++(int)`:
`postinc_return temp(**this); ++*this; return temp;`.  The first component is
the returned proxy together with the iterator after the call, or the fault. -/
def iterator.postinc {I : Type} [Increment I] (it : iterator) (r : numeric_range I) :
    Except Fault (postinc_return × iterator) × numeric_range I :=
  match it.deref r with
  | Except.error e => (Except.error e, r)
  | Except.ok v =>
    let temp : postinc_return := { value := v }
    match it.preinc r with
    | (Except.error e, r1) => (Except.error e, r1)
    | (Except.ok it1, r1) => (Except.ok (temp, it1), r1)

/-- The loop `for (auto it = r.begin(); it != r.end();) std::cout << *it++;` of
`main`, from the cursor `it` on, returning the printed values in order.  `none`
means the step budget ran out before the loop ended. -/
def postinc_loop {I : Type} [Increment I] :
    Nat → iterator → numeric_range I → Option (Except Fault (List Int))
  | 0, _, _ => none
  | fuel + 1, it, r =>
    if iterator.ne it r.end_ then
      match it.postinc r with
      | (Except.error e, _) => some (Except.error e)
      | (Except.ok (temp, it1), r1) =>
        match postinc_loop fuel it1 r1 with
        | none => none
        | some (Except.error e) => some (Except.error e)
        | some (Except.ok xs) => some (Except.ok (temp.deref :: xs))
    else
      some (Except.ok [])

end NumericRange

namespace CustomContainer

/-! ## The free store -/

/-- A value of type `T*`: the null pointer, or the address of element `off` of
the array allocated as block number `block`. -/
inductive Pointer where
  | nullptr
  | elem (block : Nat) (off : Nat)
  deriving DecidableEq, Repr

/-- Pointer arithmetic `p + k`.  On the null pointer only `nullptr + 0` is
defined in C++; it is the null pointer. -/
def Pointer.add : Pointer → Nat → Pointer
  | Pointer.nullptr, _ => Pointer.nullptr
  | Pointer.elem b o, k => Pointer.elem b (o + k)

/-- The free store: the arrays created by `new T[n]`, in order of allocation;
`none` marks an array released by `delete[]`. -/
structure Heap (T : Type) where
  blocks : List (Option (List T))

/-- The expression `new T[n]`: a fresh array of `n` default-initialised
elements, and the pointer to its first element. -/
def Heap.new_array {T : Type} [Inhabited T] (h : Heap T) (n : Nat) : Pointer × Heap T :=
  (Pointer.elem h.blocks.length 0, { blocks := h.blocks ++ [some (List.replicate n default)] })

/-- Reading `*p`; `none` when `p` does not address a live element. -/
def Heap.read {T : Type} (h : Heap T) : Pointer → Option T
  | Pointer.nullptr => none
  | Pointer.elem b o =>
    match h.blocks[b]? with
    | some (some xs) => xs[o]?
    | _ => none

/-- Writing `*p = v`; `none` when `p` does not address a live element. -/
def Heap.write {T : Type} (h : Heap T) (p : Pointer) (v : T) : Option (Heap T) :=
  match p with
  | Pointer.nullptr => none
  | Pointer.elem b o =>
    match h.blocks[b]? with
    | some (some xs) =>
      if o < xs.length then some { blocks := h.blocks.set b (some (xs.set o v)) } else none
    | _ => none

/-- The ways an operation on `MyArray` can fail: a failed `assert`, which
aborts the program, an access through a pointer to no live element, or a
`delete[]` of a pointer that is neither null nor the start of a live array. -/
inductive Fault where
  | assertion_failed
  | invalid_access
  | invalid_delete
  deriving DecidableEq, Repr

/-! ## `MyArray<T>::iterator` (`main.cpp` lines 14-44) -/

/-- The class `MyArray<T>::iterator`, whose data member is `pointer _ptr`. -/
structure iterator where
  _ptr : Pointer
  deriving DecidableEq, Repr

/-- The pre-increment `self_type &operator++() { _ptr++; return *this; }`. -/
def iterator.preinc (it : iterator) : iterator :=
  { _ptr := it._ptr.add 1 }

/-- The dereference `reference &operator*() { return *_ptr; }`, read. -/
def iterator.deref {T : Type} (it : iterator) (h : Heap T) : Except Fault T :=
  match h.read it._ptr with
  | none => Except.error Fault.invalid_access
  | some v => Except.ok v

/-- The comparison `operator==`: `_ptr == rhs._ptr`. -/
def iterator.eq (lhs rhs : iterator) : Bool :=
  decide (lhs._ptr = rhs._ptr)

/-- The comparison `operator!=`: `_ptr != rhs._ptr`. -/
def iterator.ne (lhs rhs : iterator) : Bool :=
  decide (lhs._ptr ≠ rhs._ptr)

/-! ## `MyArray<T>` (`main.cpp` lines 47-53, 100-127) -/

/-- The data members of `MyArray<T>`: `T* _data` and `size_type _size`. -/
structure MyArray where
  _data : Pointer
  _size : Nat
  deriving DecidableEq, Repr

/-- The constructor `explicit MyArray(size_type size = 0)`. -/
def MyArray.ctor {T : Type} [Inhabited T] (size : Nat) (h : Heap T) : MyArray × Heap T :=
  if size ≠ 0 then
    let (p, h1) := h.new_array size
    ({ _data := p, _size := size }, h1)
  else
    ({ _data := Pointer.nullptr, _size := size }, h)

/-- The member `size_type size() const { return _size; }`. -/
def MyArray.size (a : MyArray) : Nat :=
  a._size

/-- The member `operator[]`, read: `assert(index < _size); return _data[index];`. -/
def MyArray.index {T : Type} (a : MyArray) (index : Nat) (h : Heap T) : Except Fault T :=
  if index < a._size then
    match h.read (a._data.add index) with
    | none => Except.error Fault.invalid_access
    | some v => Except.ok v
  else
    Except.error Fault.assertion_failed

/-- The member `operator[]` followed by an assignment through the returned
reference: `a[index] = v;`. -/
def MyArray.assign_index {T : Type} (a : MyArray) (index : Nat) (v : T) (h : Heap T) :
    Except Fault (Heap T) :=
  if index < a._size then
    match h.write (a._data.add index) v with
    | none => Except.error Fault.invalid_access
    | some h1 => Except.ok h1
  else
    Except.error Fault.assertion_failed

/-- The member `iterator begin() { return iterator(_data); }`. -/
def MyArray.begin (a : MyArray) : iterator :=
  { _ptr := a._data }

/-- The member `iterator end() { return iterator(_data + _size); }`. -/
def MyArray.end_ (a : MyArray) : iterator :=
  { _ptr := a._data.add a._size }

/-- The class invariant of `MyArray`: `_data` is null with `_size == 0`, or it
points to the first element of a live array of exactly `_size` elements. -/
def MyArray.valid {T : Type} (a : MyArray) (h : Heap T) : Prop :=
  (a._data = Pointer.nullptr ∧ a._size = 0) ∨
    ∃ (b : Nat) (xs : List T),
      a._data = Pointer.elem b 0 ∧ h.blocks[b]? = some (some xs) ∧ xs.length = a._size

/-! ## Copying into a vector (`main.cpp` lines 150-151) -/

/-- The standard `std::insert_iterator` over a `std::vector<T>`, as returned by
`std::inserter(vec, pos)`: the vector and the insertion position. -/
structure insert_iterator (T : Type) where
  container : List T
  iter : Nat

/-- The function `std::inserter(vec, vec.begin())`. -/
def inserter {T : Type} (vec : List T) : insert_iterator T :=
  { container := vec, iter := 0 }

/-- The statement `*out = v; ++out;` on a `std::insert_iterator`:
`iter = container->insert(iter, v); ++iter;`. -/
def insert_iterator.assign {T : Type} (out : insert_iterator T) (v : T) : insert_iterator T :=
  { container := out.container.insertIdx out.iter v, iter := out.iter + 1 }

/-- The standard algorithm `std::copy(first, last, out)`:
`for (; first != last; ++out, ++first) *out = *first; return out;`.
`none` means the step budget ran out before the loop ended. -/
def copy {T : Type} :
    Nat → iterator → iterator → insert_iterator T → Heap T →
      Option (Except Fault (insert_iterator T))
  | 0, _, _, _, _ => none
  | fuel + 1, first, last, out, h =>
    if iterator.ne first last then
      match first.deref h with
      | Except.error e => some (Except.error e)
      | Except.ok v => copy fuel first.preinc last (out.assign v) h
    else
      some (Except.ok out)

/-! ## Copy and move (`main.cpp` lines 54-93)

The copy constructor `MyArray(const MyArray &other)` (lines 54-62) opens with
the initialiser `_size(other.size)`, which names the member function `size` of
line 100 rather than a value.  It is ill-formed once instantiated, so it has no
run-time behaviour and no definition here. -/

/-- The expression `delete[] p`: nothing for the null pointer, release of the
array for a pointer to the start of a live array; `none` for any other pointer. -/
def Heap.delete_array {T : Type} (h : Heap T) : Pointer → Option (Heap T)
  | Pointer.nullptr => some h
  | Pointer.elem b o =>
    if o = 0 then
      match h.blocks[b]? with
      | some (some _) => some { blocks := h.blocks.set b none }
      | _ => none
    else
      none

/-- The standard algorithm `std::copy(first, first + n, d_first)` on raw
pointers: `n` times, `*d_first++ = *first++`. -/
def copy_pointers {T : Type} : Nat → Pointer → Pointer → Heap T → Except Fault (Heap T)
  | 0, _, _, h => Except.ok h
  | n + 1, first, d_first, h =>
    match h.read first with
    | none => Except.error Fault.invalid_access
    | some v =>
      match h.write d_first v with
      | none => Except.error Fault.invalid_access
      | some h1 => copy_pointers n (first.add 1) (d_first.add 1) h1

/-- The program state around `MyArray` objects: the objects themselves, by
address, and the free store holding their buffers. -/
structure Memory (T : Type) where
  objects : Nat → MyArray
  heap : Heap T

/-- The assignment `x._data = p` to the object at address `x`. -/
def Memory.set_data {T : Type} (m : Memory T) (x : Nat) (p : Pointer) : Memory T :=
  { m with objects := fun y => if y = x then { m.objects x with _data := p } else m.objects y }

/-- The assignment `x._size = n` to the object at address `x`. -/
def Memory.set_size {T : Type} (m : Memory T) (x : Nat) (n : Nat) : Memory T :=
  { m with objects := fun y => if y = x then { m.objects x with _size := n } else m.objects y }

/-- The copy assignment `MyArray &operator=(const MyArray &other)` on the object
at address `this`. -/
def MyArray.copy_assign {T : Type} [Inhabited T] (this other : Nat) (m : Memory T) :
    Except Fault (Memory T) :=
  if other = this then
    Except.ok m
  else
    match m.heap.delete_array (m.objects this)._data with
    | none => Except.error Fault.invalid_delete
    | some h1 =>
      if (m.objects this)._size ≠ 0 then
        let (p, h2) := h1.new_array (m.objects this)._size
        let m1 := { m with heap := h2 }.set_data this p
        match copy_pointers (m1.objects this)._size ((m1.objects other)._data.add 0)
            ((m1.objects this)._data.add 0) m1.heap with
        | Except.error e => Except.error e
        | Except.ok h3 => Except.ok { m1 with heap := h3 }
      else
        Except.ok ({ m with heap := h1 }.set_data this Pointer.nullptr)

/-- The four assignments shared by the move operations:
`_data = other._data; _size = other._size; other._data = nullptr;
other._size = 0;`. -/
def MyArray.take {T : Type} (this other : Nat) (m : Memory T) : Memory T :=
  let m1 := m.set_data this (m.objects other)._data
  let m2 := m1.set_size this (m1.objects other)._size
  let m3 := m2.set_data other Pointer.nullptr
  m3.set_size other 0

/-- The move constructor `MyArray(MyArray &&other)`, building the object at
address `this`.  No member has an initialiser, and `indeterminate` is the value
the uninitialised `_data` holds when `delete[] _data` runs. -/
def MyArray.move_ctor {T : Type} (this other : Nat) (indeterminate : Pointer)
    (m : Memory T) : Except Fault (Memory T) :=
  let m0 := m.set_data this indeterminate
  match m0.heap.delete_array (m0.objects this)._data with
  | none => Except.error Fault.invalid_delete
  | some h1 => Except.ok (MyArray.take this other { m0 with heap := h1 })

/-- The move assignment `MyArray &operator=(MyArray &&other)` on the object at
address `this`. -/
def MyArray.move_assign {T : Type} (this other : Nat) (m : Memory T) :
    Except Fault (Memory T) :=
  if other = this then
    Except.ok m
  else
    match m.heap.delete_array (m.objects this)._data with
    | none => Except.error Fault.invalid_delete
    | some h1 => Except.ok (MyArray.take this other { m with heap := h1 })

/-! ## A program state with two arrays -/

/-- The state after `MyArray<int> a(1); MyArray<int> b(2); b[0] = 5; b[1] = 7;`
on an empty free store with zero-initialised elements: `a` lives at address 0,
`b` at address 1, and every other address holds no array yet. -/
def two_arrays : Memory Int :=
  { objects := fun x =>
      if x = 0 then { _data := Pointer.elem 0 0, _size := 1 }
      else if x = 1 then { _data := Pointer.elem 1 0, _size := 2 }
      else { _data := Pointer.nullptr, _size := 0 },
    heap := { blocks := [some [0], some [5, 7]] } }

end CustomContainer

namespace NumericRange

/-! ## Traversal lemmas -/

/-- The values `cur, cur + d, cur + 2 d, ...`, `n` of them. -/
theorem range_succ_map_affine (cur d : Int) (n : Nat) :
    (List.range (n + 1)).map (fun k : Nat => cur + (k : Int) * d) =
      cur :: (List.range n).map (fun k : Nat => (cur + d) + (k : Int) * d) := by
  rw [List.range_succ_eq_map]
  simp only [List.map_cons, List.map_map, Nat.cast_zero, zero_mul, add_zero]
  congr 1
  apply List.map_congr_left
  intro k _
  simp only [Function.comp, Nat.succ_eq_add_one, Nat.cast_add, Nat.cast_one]
  ring

/-- An exhausted range prints nothing, whatever the policy, given one unit of
fuel. -/
theorem range_for_at_end {I : Type} [Increment I] (r : numeric_range I)
    (h : r.at_end = true) (fuel : Nat) (hf : 0 < fuel) :
    range_for fuel r = some (Except.ok []) := by
  obtain ⟨f, rfl⟩ := Nat.exists_eq_succ_of_ne_zero (Nat.pos_iff_ne_zero.mp hf)
  simp [range_for, for_loop, numeric_range.begin, numeric_range.end_, iterator.ctor,
    iterator.check_done, iterator.ne, iterator.eq, h]

/-- One turn of the loop on a range that is not exhausted: the current value
is printed and the loop continues on the advanced range. -/
theorem range_for_step {I : Type} [Increment I] (r : numeric_range I)
    (h : r.at_end = false) (fuel : Nat) (xs : List Int)
    (hrest : range_for fuel { r with current := Increment.call r.inc r.current } =
      some (Except.ok xs)) :
    range_for (fuel + 1) r = some (Except.ok (r.current :: xs)) := by
  simp only [range_for, numeric_range.begin, numeric_range.end_, iterator.ctor,
    iterator.check_done] at hrest ⊢
  simp only [for_loop, iterator.ne, iterator.eq, h, iterator.deref, iterator.preinc,
    iterator.check_done]
  simp only [Bool.false_eq_true, if_false, decide_False, decide_True, Bool.not_false,
    Bool.not_true, if_true, reduceCtorEq]
  rw [hrest]

/-- Traversal of an increasing range whose policy adds a positive `d`. -/
theorem range_for_increasing {I : Type} [Increment I] (inc : I) (d : Int) (hd : 0 < d)
    (hcall : ∀ x, Increment.call inc x = x + d) (final : Int) :
    ∀ (m : Nat) (cur : Int), (final - cur).toNat ≤ m →
      ∃ n : Nat, (∀ k : Nat, k < n ↔ cur + (k : Int) * d < final) ∧
        ∀ fuel, n < fuel →
          range_for fuel
              ({ current := cur, final := final, inc := inc, dir := direction.increasing } :
                numeric_range I) =
            some (Except.ok ((List.range n).map (fun k : Nat => cur + (k : Int) * d))) := by
  intro m
  induction m with
  | zero =>
    intro cur hm
    have hle : final ≤ cur := by omega
    refine ⟨0, ?_, ?_⟩
    · intro k
      constructor
      · intro hk; omega
      · intro hk
        have : 0 ≤ (k : Int) * d := by positivity
        omega
    · intro fuel hf
      exact range_for_at_end _ (by simp [numeric_range.at_end, hle]) fuel hf
  | succ m ih =>
    intro cur hm
    by_cases hle : final ≤ cur
    · refine ⟨0, ?_, ?_⟩
      · intro k
        constructor
        · intro hk; omega
        · intro hk
          have : 0 ≤ (k : Int) * d := by positivity
          omega
      · intro fuel hf
        exact range_for_at_end _ (by simp [numeric_range.at_end, hle]) fuel hf
    · obtain ⟨n, hn, hrun⟩ := ih (cur + d) (by omega)
      refine ⟨n + 1, ?_, ?_⟩
      · intro k
        cases k with
        | zero => simp; omega
        | succ j =>
          have := hn j
          have e : cur + ((j + 1 : Nat) : Int) * d = cur + d + (j : Int) * d := by
            push_cast; ring
          rw [e]
          omega
      · intro fuel hf
        obtain ⟨f, rfl⟩ := Nat.exists_eq_succ_of_ne_zero (show fuel ≠ 0 by omega)
        rw [range_succ_map_affine]
        have := range_for_step
          ({ current := cur, final := final, inc := inc, dir := direction.increasing } :
            numeric_range I) (by simp [numeric_range.at_end, hle]) f _
            (by simpa [hcall] using hrun f (by omega))
        simpa using this

/-- Traversal of a decreasing range whose policy adds a negative `d`. -/
theorem range_for_decreasing {I : Type} [Increment I] (inc : I) (d : Int) (hd : d < 0)
    (hcall : ∀ x, Increment.call inc x = x + d) (final : Int) :
    ∀ (m : Nat) (cur : Int), (cur - final).toNat ≤ m →
      ∃ n : Nat, (∀ k : Nat, k < n ↔ final < cur + (k : Int) * d) ∧
        ∀ fuel, n < fuel →
          range_for fuel
              ({ current := cur, final := final, inc := inc, dir := direction.decreasing } :
                numeric_range I) =
            some (Except.ok ((List.range n).map (fun k : Nat => cur + (k : Int) * d))) := by
  have hnonpos : ∀ k : Nat, (k : Int) * d ≤ 0 := fun k =>
    mul_nonpos_of_nonneg_of_nonpos (Int.ofNat_nonneg k) (le_of_lt hd)
  intro m
  induction m with
  | zero =>
    intro cur hm
    have hle : cur ≤ final := by omega
    refine ⟨0, ?_, ?_⟩
    · intro k
      constructor
      · intro hk; omega
      · intro hk
        have := hnonpos k
        omega
    · intro fuel hf
      exact range_for_at_end _ (by simp [numeric_range.at_end, hle]) fuel hf
  | succ m ih =>
    intro cur hm
    by_cases hle : cur ≤ final
    · refine ⟨0, ?_, ?_⟩
      · intro k
        constructor
        · intro hk; omega
        · intro hk
          have := hnonpos k
          omega
      · intro fuel hf
        exact range_for_at_end _ (by simp [numeric_range.at_end, hle]) fuel hf
    · obtain ⟨n, hn, hrun⟩ := ih (cur + d) (by omega)
      refine ⟨n + 1, ?_, ?_⟩
      · intro k
        cases k with
        | zero => simp; omega
        | succ j =>
          have := hn j
          have e : cur + ((j + 1 : Nat) : Int) * d = cur + d + (j : Int) * d := by
            push_cast; ring
          rw [e]
          omega
      · intro fuel hf
        obtain ⟨f, rfl⟩ := Nat.exists_eq_succ_of_ne_zero (show fuel ≠ 0 by omega)
        rw [range_succ_map_affine]
        have := range_for_step
          ({ current := cur, final := final, inc := inc, dir := direction.decreasing } :
            numeric_range I) (by simp [numeric_range.at_end, hle]) f _
            (by simpa [hcall] using hrun f (by omega))
        simpa using this

/-! ## C1: traversal of `range(from, to, delta)` -/

/-- C1: over the integers, for every `from`, `to` and nonzero `delta`,
`range(from, to, delta)` is constructed and its range-based `for` traversal ends
(for every step budget above the number `n` of values) having yielded exactly
`from + k * delta` for `k = 0, ..., n - 1` in that order, where `k < n` holds
precisely when `from + k * delta` lies strictly before the bound (`< to` for
`delta > 0`, `> to` for `delta < 0`); the bound is never yielded, and a start
at or past the bound yields the empty sequence. -/
theorem C1_range3_traversal (from_ to_ delta : Int) (hdelta : delta ≠ 0) :
    ∃ (r : numeric_range IncrementBy) (n : Nat),
      range3 from_ to_ delta = Except.ok r ∧
      (∀ fuel, n < fuel →
        range_for_expr fuel (range3 from_ to_ delta) =
          some (Except.ok ((List.range n).map (fun k : Nat => from_ + (k : Int) * delta)))) ∧
      (∀ k : Nat, k < n ↔
        (if delta > 0 then from_ + (k : Int) * delta < to_
          else from_ + (k : Int) * delta > to_)) ∧
      to_ ∉ (List.range n).map (fun k : Nat => from_ + (k : Int) * delta) ∧
      ((if delta > 0 then to_ ≤ from_ else from_ ≤ to_) → n = 0) := by
  by_cases hpos : delta > 0
  · obtain ⟨n, hn, hrun⟩ := range_for_increasing ({ delta := delta } : IncrementBy) delta hpos
      (fun _ => rfl) to_ (to_ - from_).toNat from_ le_rfl
    refine ⟨numeric_range.ctor4 from_ to_ { delta := delta } direction.increasing, n,
      by simp [range3, hdelta, hpos], ?_, ?_, ?_, ?_⟩
    · intro fuel hf
      simpa [range3, hdelta, hpos, range_for_expr, numeric_range.ctor4] using hrun fuel hf
    · intro k
      simpa [hpos] using hn k
    · intro hmem
      obtain ⟨k, hk, hkeq⟩ := List.mem_map.mp hmem
      have := (hn k).mp (List.mem_range.mp hk)
      omega
    · intro hstart
      simp only [hpos, if_true] at hstart
      by_contra hne
      have := (hn 0).mp (Nat.pos_of_ne_zero hne)
      simp at this
      omega
  · have hneg : delta < 0 := by omega
    obtain ⟨n, hn, hrun⟩ := range_for_decreasing ({ delta := delta } : IncrementBy) delta hneg
      (fun _ => rfl) to_ (from_ - to_).toNat from_ le_rfl
    refine ⟨numeric_range.ctor4 from_ to_ { delta := delta } direction.decreasing, n,
      by simp [range3, hdelta, hpos], ?_, ?_, ?_, ?_⟩
    · intro fuel hf
      simpa [range3, hdelta, hpos, range_for_expr, numeric_range.ctor4] using hrun fuel hf
    · intro k
      simpa [hpos] using hn k
    · intro hmem
      obtain ⟨k, hk, hkeq⟩ := List.mem_map.mp hmem
      have := (hn k).mp (List.mem_range.mp hk)
      omega
    · intro hstart
      simp only [hpos, if_false] at hstart
      by_contra hne
      have := (hn 0).mp (Nat.pos_of_ne_zero hne)
      simp at this
      omega

/-- The traversals printed by `main`: `range(0,30,5)`, `range(0,31,5)`,
`range(0,-10,-1)` and `range(0,10,3)`, each an instance of C1. -/
theorem C1_range3_traversal_witness :
    ((5 : Int) ≠ 0 ∧ ∃ (r : numeric_range IncrementBy) (n : Nat),
      range3 0 30 5 = Except.ok r ∧
      (∀ fuel, n < fuel →
        range_for_expr fuel (range3 0 30 5) =
          some (Except.ok ((List.range n).map (fun k : Nat => (0 : Int) + (k : Int) * 5)))) ∧
      (∀ k : Nat, k < n ↔
        (if (5 : Int) > 0 then (0 : Int) + (k : Int) * 5 < 30
          else (0 : Int) + (k : Int) * 5 > 30)) ∧
      (30 : Int) ∉ (List.range n).map (fun k : Nat => (0 : Int) + (k : Int) * 5) ∧
      ((if (5 : Int) > 0 then (30 : Int) ≤ 0 else (0 : Int) ≤ 30) → n = 0)) ∧
    range_for_expr 7 (range3 0 30 5) = some (Except.ok [0, 5, 10, 15, 20, 25]) ∧
    range_for_expr 8 (range3 0 31 5) = some (Except.ok [0, 5, 10, 15, 20, 25, 30]) ∧
    range_for_expr 11 (range3 0 (-10) (-1)) =
      some (Except.ok [0, -1, -2, -3, -4, -5, -6, -7, -8, -9]) ∧
    range_for_expr 5 (range3 0 10 3) = some (Except.ok [0, 3, 6, 9]) :=
  ⟨⟨by decide, C1_range3_traversal 0 30 5 (by decide)⟩, by decide, by decide, by decide,
    by decide⟩

/-! ## C2: the zero-step check of `range(from, to, delta)` -/

/-- C2: `range(from, to, delta)` throws `std::runtime_error("Step must be
non-zero")` exactly when `delta` is zero, and returns a range exactly when
`delta` is nonzero, whatever `from` and `to` are. -/
theorem C2_range3_step_zero_iff (from_ to_ delta : Int) :
    (range3 from_ to_ delta = Except.error (Fault.runtime_error "Step must be non-zero") ↔
        delta = 0) ∧
      ((∃ r : numeric_range IncrementBy, range3 from_ to_ delta = Except.ok r) ↔
        delta ≠ 0) := by
  by_cases h : delta = 0
  · simp [range3, h]
  · simp [range3, h]

/-! ## C3, C6: traversal of `range(to)` and `range(from, to)` -/

/-- Traversal of the range built by `numeric_range(initial_, final_)` with
`initial_ <= final_`: the values `initial_, ..., final_ - 1`. -/
theorem range_for_ctor2 (initial_ final_ : Int) (h : initial_ ≤ final_) (fuel : Nat)
    (hf : (final_ - initial_).toNat < fuel) :
    range_for fuel (numeric_range.ctor2 initial_ final_) =
      some (Except.ok
        ((List.range (final_ - initial_).toNat).map (fun k : Nat => initial_ + (k : Int)))) := by
  obtain ⟨n, hn, hrun⟩ := range_for_increasing ({} : IncrementValue) 1 one_pos
    (fun _ => rfl) final_ (final_ - initial_).toNat initial_ le_rfl
  have hcount : n = (final_ - initial_).toNat := by
    have h1 := hn n
    have h2 := hn (final_ - initial_).toNat
    omega
  subst hcount
  simpa [numeric_range.ctor2] using hrun fuel hf

/-- C3: for every `to > 0`, `range(to)` is `range(0, to)`, it is constructed
without error, and its traversal ends having yielded exactly `0, 1, ..., to - 1`
in increasing order, `to` values in all. -/
theorem C3_range1_positive (to_ : Int) (hto : to_ > 0) :
    range1 to_ = range2 0 to_ ∧
      (∃ r : numeric_range IncrementValue, range1 to_ = Except.ok r) ∧
      (∀ fuel, to_.toNat < fuel →
        range_for_expr fuel (range1 to_) =
          some (Except.ok ((List.range to_.toNat).map (fun k : Nat => (k : Int))))) ∧
      (((List.range to_.toNat).map (fun k : Nat => (k : Int))).length : Int) = to_ := by
  refine ⟨rfl, ⟨numeric_range.ctor2 0 to_, ?_⟩, ?_, ?_⟩
  · simp [range1, range2]
    omega
  · intro fuel hf
    have hnot : ¬ to_ < 0 := by omega
    have := range_for_ctor2 0 to_ (by omega) fuel (by simpa using hf)
    simpa [range1, range2, hnot, range_for_expr] using this
  · simp
    omega

/-- The traversal `for (int x : range(10))` of `main`, an instance of C3. -/
theorem C3_range1_positive_witness :
    ((10 : Int) > 0 ∧
      (range1 10 = range2 0 10 ∧
      (∃ r : numeric_range IncrementValue, range1 10 = Except.ok r) ∧
      (∀ fuel, (10 : Int).toNat < fuel →
        range_for_expr fuel (range1 10) =
          some (Except.ok ((List.range (10 : Int).toNat).map (fun k : Nat => (k : Int))))) ∧
      (((List.range (10 : Int).toNat).map (fun k : Nat => (k : Int))).length : Int) = 10)) ∧
    range_for_expr 11 (range1 10) = some (Except.ok [0, 1, 2, 3, 4, 5, 6, 7, 8, 9]) :=
  ⟨⟨by decide, C3_range1_positive 10 (by decide)⟩, by decide⟩

/-! ## C4: `range(to)` for `to <= 0` -/

/-- C4 fails as stated: `-1 <= 0`, yet `range(-1)` throws
`std::runtime_error("Cannot count down ")` instead of yielding an empty
sequence. -/
theorem C4_range1_negative_throws :
    (-1 : Int) ≤ 0 ∧
      range1 (-1) = Except.error (Fault.runtime_error "Cannot count down ") ∧
      range_for_expr 1 (range1 (-1)) =
        some (Except.error (Fault.runtime_error "Cannot count down ")) := by
  decide

/-- C4 as amended: for `to <= 0`, `range(0)` is constructed without error, its
`begin()` equals its `end()` and its traversal yields the empty sequence, while
for every `to < 0` the call `range(to)` throws
`std::runtime_error("Cannot count down ")` and there is no sequence. -/
theorem C4_range1_nonpositive (to_ : Int) (hto : to_ ≤ 0) :
    (to_ = 0 →
      ∃ r : numeric_range IncrementValue, range1 to_ = Except.ok r ∧
        iterator.eq r.begin r.end_ = true ∧
        ∀ fuel, 0 < fuel → range_for_expr fuel (range1 to_) = some (Except.ok [])) ∧
    (to_ < 0 →
      range1 to_ = Except.error (Fault.runtime_error "Cannot count down ") ∧
        ∀ fuel, range_for_expr fuel (range1 to_) =
          some (Except.error (Fault.runtime_error "Cannot count down "))) := by
  constructor
  · rintro rfl
    refine ⟨numeric_range.ctor2 0 0, by simp [range1, range2], by decide, ?_⟩
    intro fuel hf
    have := range_for_at_end (numeric_range.ctor2 0 0) (by decide) fuel hf
    simpa [range1, range2, range_for_expr] using this
  · intro hneg
    have e : range1 to_ = Except.error (Fault.runtime_error "Cannot count down ") := by
      simp [range1, range2, hneg]
    refine ⟨e, ?_⟩
    intro fuel
    rw [e]
    rfl

/-- The loop `for (int x : range(0))` of `main` prints nothing, and `range(-3)`
throws: instances of the amended C4. -/
theorem C4_range1_nonpositive_witness :
    ((0 : Int) ≤ 0 ∧
      ((0 : Int) = 0 →
        ∃ r : numeric_range IncrementValue, range1 0 = Except.ok r ∧
          iterator.eq r.begin r.end_ = true ∧
          ∀ fuel, 0 < fuel → range_for_expr fuel (range1 0) = some (Except.ok [])) ∧
      ((0 : Int) < 0 →
        range1 0 = Except.error (Fault.runtime_error "Cannot count down ") ∧
          ∀ fuel, range_for_expr fuel (range1 0) =
            some (Except.error (Fault.runtime_error "Cannot count down ")))) ∧
    range_for_expr 1 (range1 0) = some (Except.ok []) ∧
    range1 (-3) = Except.error (Fault.runtime_error "Cannot count down ") :=
  ⟨⟨by decide, C4_range1_nonpositive 0 (by decide)⟩, by decide,
    (C4_range1_nonpositive (-3) (by decide)).2 (by decide) |>.1⟩

/-! ## C5: the guard of `range(from, to)` -/

/-- C5 fails as stated: with `to = 0 < from = 1` the call `range(1, 0)` throws
`std::runtime_error("Cannot count down ")`, so `to >= from` is validated and no
empty sequence results. -/
theorem C5_range2_backward_throws :
    (0 : Int) < 1 ∧
      range2 1 0 = Except.error (Fault.runtime_error "Cannot count down ") ∧
      range_for_expr 1 (range2 1 0) =
        some (Except.error (Fault.runtime_error "Cannot count down ")) := by
  decide

/-- C5 as amended: `range(from, to)` validates `to >= from`.  It throws
`std::runtime_error("Cannot count down ")` exactly when `to < from`, and returns
the range `numeric_range(from, to)` exactly when `from <= to`; when `to == from`
the sequence is empty because the boundary predicate holds at the start. -/
theorem C5_range2_guard (from_ to_ : Int) :
    (range2 from_ to_ = Except.error (Fault.runtime_error "Cannot count down ") ↔
        to_ < from_) ∧
      (range2 from_ to_ = Except.ok (numeric_range.ctor2 from_ to_) ↔ from_ ≤ to_) ∧
      ((numeric_range.ctor2 from_ from_).at_end = true ∧
        ∀ fuel, 0 < fuel → range_for_expr fuel (range2 from_ from_) = some (Except.ok [])) := by
  refine ⟨?_, ?_, ?_, ?_⟩
  · by_cases h : to_ < from_ <;> simp [range2, h]
  · by_cases h : to_ < from_
    · simp [range2, h]
    · simp [range2, h]
      omega
  · simp [numeric_range.ctor2, numeric_range.at_end]
  · intro fuel hf
    have := range_for_at_end (numeric_range.ctor2 from_ from_)
      (by simp [numeric_range.ctor2, numeric_range.at_end]) fuel hf
    simpa [range2, range_for_expr] using this

/-! ## C6: traversal of `range(from, to)` -/

/-- C6: for every `from <= to`, `range(from, to)` is constructed without error
and its traversal ends having yielded exactly `from, from + 1, ..., to - 1` in
increasing order: `to - from` values, the bound excluded, none when
`from == to`. -/
theorem C6_range2_traversal (from_ to_ : Int) (h : from_ ≤ to_) :
    (∃ r : numeric_range IncrementValue, range2 from_ to_ = Except.ok r) ∧
      (∀ fuel, (to_ - from_).toNat < fuel →
        range_for_expr fuel (range2 from_ to_) =
          some (Except.ok
            ((List.range (to_ - from_).toNat).map (fun k : Nat => from_ + (k : Int))))) ∧
      (((List.range (to_ - from_).toNat).map (fun k : Nat => from_ + (k : Int))).length : Int) =
        to_ - from_ ∧
      to_ ∉ (List.range (to_ - from_).toNat).map (fun k : Nat => from_ + (k : Int)) ∧
      (from_ = to_ →
        (List.range (to_ - from_).toNat).map (fun k : Nat => from_ + (k : Int)) = []) := by
  have hnot : ¬ to_ < from_ := by omega
  refine ⟨⟨numeric_range.ctor2 from_ to_, by simp [range2, hnot]⟩, ?_, ?_, ?_, ?_⟩
  · intro fuel hf
    have := range_for_ctor2 from_ to_ h fuel hf
    simpa [range2, hnot, range_for_expr] using this
  · simp
    omega
  · intro hmem
    obtain ⟨k, hk, hkeq⟩ := List.mem_map.mp hmem
    have := List.mem_range.mp hk
    omega
  · rintro rfl
    simp

/-- The traversal `for (int x : range(1, 11))` of `main`, an instance of C6. -/
theorem C6_range2_traversal_witness :
    ((1 : Int) ≤ 11 ∧
      ((∃ r : numeric_range IncrementValue, range2 1 11 = Except.ok r) ∧
      (∀ fuel, ((11 : Int) - 1).toNat < fuel →
        range_for_expr fuel (range2 1 11) =
          some (Except.ok
            ((List.range ((11 : Int) - 1).toNat).map (fun k : Nat => (1 : Int) + (k : Int))))) ∧
      (((List.range ((11 : Int) - 1).toNat).map
          (fun k : Nat => (1 : Int) + (k : Int))).length : Int) = 11 - 1 ∧
      (11 : Int) ∉ (List.range ((11 : Int) - 1).toNat).map (fun k : Nat => (1 : Int) + (k : Int)) ∧
      ((1 : Int) = 11 →
        (List.range ((11 : Int) - 1).toNat).map (fun k : Nat => (1 : Int) + (k : Int)) = []))) ∧
    range_for_expr 11 (range2 1 11) = some (Except.ok [1, 2, 3, 4, 5, 6, 7, 8, 9, 10]) :=
  ⟨⟨by decide, C6_range2_traversal 1 11 (by decide)⟩, by decide⟩

/-! ## C7: advancing an exhausted cursor -/

/-- C7: for every range (hence every range returned by a `range` overload) and
every cursor equal to `end()` (the `end()` cursor itself, or a cursor that a
successful `++` has just made equal to `end()`), `++` throws
`std::runtime_error("Increment a past-the-end iterator")` and leaves the range,
in particular its current value and its bound, as it was. -/
theorem C7_preinc_at_end_throws {I : Type} [Increment I] :
    (∀ r : numeric_range I,
      iterator.preinc r.end_ r =
        (Except.error (Fault.runtime_error "Increment a past-the-end iterator"), r)) ∧
    (∀ (r : numeric_range I) (it : iterator), iterator.eq it r.end_ = true →
      iterator.preinc it r =
          (Except.error (Fault.runtime_error "Increment a past-the-end iterator"), r) ∧
        (iterator.preinc it r).2.current = r.current ∧
        (iterator.preinc it r).2.final = r.final) ∧
    (∀ (r r1 : numeric_range I) (it it1 : iterator),
      iterator.preinc it r = (Except.ok it1, r1) → iterator.eq it1 r1.end_ = true →
        iterator.preinc it1 r1 =
          (Except.error (Fault.runtime_error "Increment a past-the-end iterator"), r1)) := by
  have key : ∀ (r : numeric_range I) (it : iterator), iterator.eq it r.end_ = true →
      iterator.preinc it r =
        (Except.error (Fault.runtime_error "Increment a past-the-end iterator"), r) := by
    intro r it h
    have hnull : it.range = none := by
      simpa [iterator.eq, numeric_range.end_, iterator.ctor] using h
    simp [iterator.preinc, hnull]
  refine ⟨fun r => key r _ (by simp [iterator.eq]), ?_, ?_⟩
  · intro r it h
    rw [key r it h]
    exact ⟨rfl, rfl, rfl⟩
  · intro r r1 it it1 _ h
    exact key r1 it1 h

/-- Instances of C7 on ranges of all three `range` overloads: the `end()` cursor
of `numeric_range(0, 3)`, and the `begin()` cursors of `numeric_range(0, 1)` and
of `range(0, 5, 5)` after their one successful `++`. -/
theorem C7_preinc_at_end_throws_witness :
    iterator.eq (numeric_range.ctor2 0 3).end_ (numeric_range.ctor2 0 3).end_ = true ∧
    range1 3 = Except.ok (numeric_range.ctor2 0 3) ∧
    (iterator.preinc (numeric_range.ctor2 0 3).end_ (numeric_range.ctor2 0 3) =
        (Except.error (Fault.runtime_error "Increment a past-the-end iterator"),
          numeric_range.ctor2 0 3) ∧
      (iterator.preinc (numeric_range.ctor2 0 3).end_ (numeric_range.ctor2 0 3)).2.current =
        (numeric_range.ctor2 0 3).current ∧
      (iterator.preinc (numeric_range.ctor2 0 3).end_ (numeric_range.ctor2 0 3)).2.final =
        (numeric_range.ctor2 0 3).final) ∧
    range2 0 1 = Except.ok (numeric_range.ctor2 0 1) ∧
    iterator.preinc (numeric_range.ctor2 0 1).begin (numeric_range.ctor2 0 1) =
      (Except.ok (numeric_range.ctor2 1 1).end_, numeric_range.ctor2 1 1) ∧
    iterator.preinc (numeric_range.ctor2 1 1).end_ (numeric_range.ctor2 1 1) =
      (Except.error (Fault.runtime_error "Increment a past-the-end iterator"),
        numeric_range.ctor2 1 1) ∧
    range3 0 5 5 = Except.ok (numeric_range.ctor4 0 5 (IncrementBy.mk 5) direction.increasing) ∧
    iterator.preinc (numeric_range.ctor4 0 5 (IncrementBy.mk 5)
        direction.increasing).begin
      (numeric_range.ctor4 0 5 (IncrementBy.mk 5) direction.increasing) =
      (Except.ok (iterator.mk none),
        numeric_range.ctor4 5 5 (IncrementBy.mk 5) direction.increasing) ∧
    iterator.preinc (iterator.mk none)
        (numeric_range.ctor4 5 5 (IncrementBy.mk 5) direction.increasing) =
      (Except.error (Fault.runtime_error "Increment a past-the-end iterator"),
        numeric_range.ctor4 5 5 (IncrementBy.mk 5) direction.increasing) :=
  ⟨by decide, by decide,
    C7_preinc_at_end_throws.2.1 (numeric_range.ctor2 0 3) (numeric_range.ctor2 0 3).end_
      (by decide),
    by decide, by decide,
    C7_preinc_at_end_throws.2.2 (numeric_range.ctor2 0 1) (numeric_range.ctor2 1 1)
      (numeric_range.ctor2 0 1).begin (numeric_range.ctor2 1 1).end_ (by decide) (by decide),
    by decide, by decide,
    C7_preinc_at_end_throws.2.2
      (numeric_range.ctor4 0 5 (IncrementBy.mk 5) direction.increasing)
      (numeric_range.ctor4 5 5 (IncrementBy.mk 5) direction.increasing)
      (numeric_range.ctor4 0 5 (IncrementBy.mk 5) direction.increasing).begin
      (iterator.mk none) (by decide) (by decide)⟩

/-! ## C8: backward configurations of `range(from, to, delta)` -/

/-- C8 fails as stated: `range(0, 10, -1)` has `delta < 0` and `to > from`, and
`range(10, 0, 1)` has `delta > 0` and `to < from`, yet both calls return a range
(an immediately exhausted one) instead of failing. -/
theorem C8_range3_backward_accepted :
    ((-1 : Int) < 0 ∧ (10 : Int) > 0 ∧
      range3 0 10 (-1) =
        Except.ok (numeric_range.ctor4 0 10 (IncrementBy.mk (-1)) direction.decreasing) ∧
      range_for_expr 1 (range3 0 10 (-1)) = some (Except.ok [])) ∧
    ((1 : Int) > 0 ∧ (0 : Int) < 10 ∧
      range3 10 0 1 =
        Except.ok (numeric_range.ctor4 10 0 (IncrementBy.mk 1) direction.increasing) ∧
      range_for_expr 1 (range3 10 0 1) = some (Except.ok [])) := by
  decide

/-- C8 as amended: `range(from, to, delta)` does not reject a backward
configuration.  For every `delta > 0` with `to < from` and every `delta < 0`
with `to > from`, the call returns a range without error; that range is
exhausted from the start, so `begin()` equals `end()` and the traversal yields
the empty sequence. -/
theorem C8_range3_backward_empty (from_ to_ delta : Int)
    (h : (delta > 0 ∧ to_ < from_) ∨ (delta < 0 ∧ to_ > from_)) :
    ∃ r : numeric_range IncrementBy,
      range3 from_ to_ delta = Except.ok r ∧
        r.at_end = true ∧
        iterator.eq r.begin r.end_ = true ∧
        ∀ fuel, 0 < fuel → range_for_expr fuel (range3 from_ to_ delta) = some (Except.ok []) := by
  have hne : delta ≠ 0 := by omega
  have hend : (numeric_range.ctor4 from_ to_ ({ delta := delta } : IncrementBy)
      (if delta > 0 then direction.increasing else direction.decreasing)).at_end = true := by
    rcases h with ⟨hd, hlt⟩ | ⟨hd, hgt⟩
    · simp [numeric_range.ctor4, numeric_range.at_end, hd]
      omega
    · have hnp : ¬ delta > 0 := by omega
      simp [numeric_range.ctor4, numeric_range.at_end, hnp]
      omega
  have hok : range3 from_ to_ delta =
      Except.ok (numeric_range.ctor4 from_ to_ ({ delta := delta } : IncrementBy)
        (if delta > 0 then direction.increasing else direction.decreasing)) := by
    simp [range3, hne]
  refine ⟨_, hok, hend, ?_, ?_⟩
  · simp [iterator.eq, numeric_range.begin, numeric_range.end_, iterator.ctor,
      iterator.check_done, hend]
  · intro fuel hf
    rw [hok]
    exact range_for_at_end _ hend fuel hf

/-- The backward call `range(0, 10, -1)` returns an empty range, an instance of
the amended C8. -/
theorem C8_range3_backward_empty_witness :
    (((-1 : Int) > 0 ∧ (10 : Int) < 0) ∨ ((-1 : Int) < 0 ∧ (10 : Int) > 0)) ∧
    ∃ r : numeric_range IncrementBy,
      range3 0 10 (-1) = Except.ok r ∧
        r.at_end = true ∧
        iterator.eq r.begin r.end_ = true ∧
        ∀ fuel, 0 < fuel → range_for_expr fuel (range3 0 10 (-1)) = some (Except.ok []) :=
  ⟨by decide, C8_range3_backward_empty 0 10 (-1) (by decide)⟩

end NumericRange

namespace CustomContainer

/-! ## Cursor arithmetic -/

/-- Advancing a cursor into a block `k` times moves it `k` elements on. -/
theorem iterate_preinc_elem (b o : Nat) (k : Nat) :
    Nat.iterate iterator.preinc k { _ptr := Pointer.elem b o } =
      { _ptr := Pointer.elem b (o + k) } := by
  induction k with
  | zero => rfl
  | succ k ih =>
    rw [Function.iterate_succ_apply', ih]
    simp [iterator.preinc, Pointer.add, Nat.add_assoc]

/-- The constructor establishes the class invariant. -/
theorem ctor_valid {T : Type} [Inhabited T] (n : Nat) (h : Heap T) :
    (MyArray.ctor n h).1.valid (MyArray.ctor n h).2 := by
  by_cases hn : n = 0
  · left
    simp [MyArray.ctor, hn]
  · right
    refine ⟨h.blocks.length, List.replicate n default, ?_, ?_, ?_⟩
    · simp [MyArray.ctor, hn, Heap.new_array]
    · simp [MyArray.ctor, hn, Heap.new_array]
    · simp [MyArray.ctor, hn]

/-- A write through `operator[]` keeps the class invariant. -/
theorem assign_index_valid {T : Type} (a : MyArray) (h h1 : Heap T) (i : Nat) (v : T)
    (hv : a.valid h) (hw : a.assign_index i v h = Except.ok h1) : a.valid h1 := by
  rcases hv with ⟨hnull, hsize⟩ | ⟨b, xs, hdata, hblock, hlen⟩
  · exact Or.inl ⟨hnull, hsize⟩
  · right
    unfold MyArray.assign_index at hw
    split at hw
    · cases hwr : h.write (a._data.add i) v with
      | none => simp [hwr] at hw
      | some h2 =>
        simp only [hwr, Except.ok.injEq] at hw
        subst hw
        simp only [hdata, Pointer.add, Heap.write, hblock, zero_add] at hwr
        split at hwr
        · simp only [Option.some.injEq] at hwr
          subst hwr
          refine ⟨b, xs.set i v, hdata, ?_, by simpa using hlen⟩
          have hb : b < h.blocks.length := by
            by_contra hnot
            rw [List.getElem?_eq_none (by omega)] at hblock
            cases hblock
          simp [List.getElem?_set, hb]
        · cases hwr
    · cases hw

/-! ## C9: size and cursor distance of a fresh `MyArray` -/

/-- C9: for every `n`, `MyArray(n).size() == n`; the `begin()` cursor advanced
`n` times equals `end()`, advanced `k < n` times it differs from `end()`; and
`begin() == end()` exactly when `n == 0`. -/
theorem C9_ctor_size_and_cursors {T : Type} [Inhabited T] (n : Nat) (h : Heap T) :
    (MyArray.ctor n h).1.size = n ∧
      iterator.eq (Nat.iterate iterator.preinc n (MyArray.ctor n h).1.begin)
        (MyArray.ctor n h).1.end_ = true ∧
      (∀ k, k < n →
        iterator.eq (Nat.iterate iterator.preinc k (MyArray.ctor n h).1.begin)
          (MyArray.ctor n h).1.end_ = false ∧
        iterator.ne (Nat.iterate iterator.preinc k (MyArray.ctor n h).1.begin)
          (MyArray.ctor n h).1.end_ = true) ∧
      (iterator.eq (MyArray.ctor n h).1.begin (MyArray.ctor n h).1.end_ = true ↔ n = 0) := by
  by_cases hn : n = 0
  · subst hn
    simp [MyArray.ctor, MyArray.size, MyArray.begin, MyArray.end_, Pointer.add, iterator.eq]
  · have hctor : (MyArray.ctor n h).1 =
        { _data := Pointer.elem h.blocks.length 0, _size := n } := by
      simp [MyArray.ctor, hn, Heap.new_array]
    rw [hctor]
    simp only [MyArray.size, MyArray.begin, MyArray.end_, Pointer.add, iterate_preinc_elem,
      iterator.eq, iterator.ne]
    refine ⟨trivial, by simp, ?_, ?_⟩
    · intro k hk
      have : k ≠ n := by omega
      simp [this]
    · simp
      omega

/-- The array `MyArray<double> point3d(3)` of `main` on an empty free store:
two advances of `begin()` do not reach `end()`, an instance of C9. -/
theorem C9_ctor_size_and_cursors_witness :
    (2 < 3) ∧
    (iterator.eq (Nat.iterate iterator.preinc 2
        (MyArray.ctor 3 ({ blocks := [] } : Heap Rat)).1.begin)
        (MyArray.ctor 3 ({ blocks := [] } : Heap Rat)).1.end_ = false ∧
      iterator.ne (Nat.iterate iterator.preinc 2
        (MyArray.ctor 3 ({ blocks := [] } : Heap Rat)).1.begin)
        (MyArray.ctor 3 ({ blocks := [] } : Heap Rat)).1.end_ = true) ∧
    (MyArray.ctor 3 ({ blocks := [] } : Heap Rat)).1.size = 3 :=
  ⟨by decide,
    (C9_ctor_size_and_cursors 3 ({ blocks := [] } : Heap Rat)).2.2.1 2 (by decide),
    (C9_ctor_size_and_cursors 3 ({ blocks := [] } : Heap Rat)).1⟩

/-! ## C10: copying a `MyArray` into a vector -/

/-- Reading through `operator[]` of a valid array finds the element of the
block at that position. -/
theorem index_of_block {T : Type} (a : MyArray) (h : Heap T) (b : Nat) (xs : List T)
    (hdata : a._data = Pointer.elem b 0) (hblock : h.blocks[b]? = some (some xs))
    (hlen : xs.length = a._size) (i : Nat) (hi : i < xs.length) :
    a.index i h = Except.ok (xs.get ⟨i, hi⟩) := by
  have hi2 : i < a._size := by omega
  simp [MyArray.index, hi2, hdata, Pointer.add, Heap.read, hblock, List.getElem?_eq_getElem hi]

/-- The loop of `std::copy` over the tail of a live block, inserting at the end
of the vector built so far, appends that tail in order. -/
theorem copy_block {T : Type} (h : Heap T) (b : Nat) (xs : List T)
    (hblock : h.blocks[b]? = some (some xs)) :
    ∀ (d o : Nat) (acc : List T), o + d = xs.length → ∀ fuel, d < fuel →
      copy fuel { _ptr := Pointer.elem b o } { _ptr := Pointer.elem b xs.length }
          { container := acc, iter := acc.length } h =
        some (Except.ok
          { container := acc ++ xs.drop o, iter := (acc ++ xs.drop o).length }) := by
  intro d
  induction d with
  | zero =>
    intro o acc ho fuel hf
    obtain ⟨f, rfl⟩ := Nat.exists_eq_succ_of_ne_zero (show fuel ≠ 0 by omega)
    have : o = xs.length := by omega
    subst this
    simp [copy, iterator.ne]
  | succ d ih =>
    intro o acc ho fuel hf
    obtain ⟨f, rfl⟩ := Nat.exists_eq_succ_of_ne_zero (show fuel ≠ 0 by omega)
    have hlt : o < xs.length := by omega
    have hne : o ≠ xs.length := by omega
    have hstep := ih (o + 1) (acc ++ [xs.get ⟨o, hlt⟩]) (by omega) f (by omega)
    have hdrop : acc ++ [xs.get ⟨o, hlt⟩] ++ xs.drop (o + 1) = acc ++ xs.drop o := by
      rw [List.append_assoc, List.singleton_append]
      congr 1
      exact (List.drop_eq_getElem_cons hlt).symm
    rw [hdrop] at hstep
    simp only [copy, iterator.ne, iterator.deref, Heap.read, hblock, iterator.preinc,
      Pointer.add, insert_iterator.assign, List.insertIdx_length_self]
    simpa [hne, List.getElem?_eq_getElem hlt] using hstep

/-- C10: for every `MyArray` satisfying its class invariant,
`std::copy(a.begin(), a.end(), std::inserter(vec, vec.begin()))` into an empty
vector ends (for every step budget above `size()`) and leaves in the vector
exactly `a[0], a[1], ..., a[size() - 1]`: `size()` elements, in index order. -/
theorem C10_copy_preserves_order {T : Type} (a : MyArray) (h : Heap T) (hv : a.valid h) :
    ∃ xs : List T,
      xs.length = a.size ∧
      (∀ (i : Nat) (hi : i < xs.length), a.index i h = Except.ok (xs.get ⟨i, hi⟩)) ∧
      ∀ fuel, a.size < fuel →
        copy fuel a.begin a.end_ (inserter []) h =
          some (Except.ok { container := xs, iter := xs.length }) := by
  rcases hv with ⟨hnull, hsize⟩ | ⟨b, xs, hdata, hblock, hlen⟩
  · refine ⟨[], by simp [MyArray.size, hsize], ?_, ?_⟩
    · intro i hi
      simp at hi
    · intro fuel hf
      obtain ⟨f, rfl⟩ := Nat.exists_eq_succ_of_ne_zero (show fuel ≠ 0 by omega)
      simp [copy, MyArray.begin, MyArray.end_, hnull, Pointer.add, iterator.ne, inserter]
  · refine ⟨xs, hlen, index_of_block a h b xs hdata hblock hlen, ?_⟩
    intro fuel hf
    have := copy_block h b xs hblock xs.length 0 [] (by omega) fuel
      (by simpa [MyArray.size, hlen] using hf)
    simpa [MyArray.begin, MyArray.end_, hdata, Pointer.add, hlen, inserter] using this

/-- The program of `main`: `MyArray<double> point3d(3)` on an empty free store,
filled with 3.3, 2.2, 4.1 through `operator[]`, satisfies the class invariant,
and `std::copy` into an empty vector gives 3.3, 2.2, 4.1: an instance of C10. -/
theorem C10_copy_preserves_order_witness :
    MyArray.ctor 3 ({ blocks := [] } : Heap Rat) =
      ({ _data := Pointer.elem 0 0, _size := 3 }, { blocks := [some [0, 0, 0]] }) ∧
    MyArray.assign_index { _data := Pointer.elem 0 0, _size := 3 } 0 (33 / 10 : Rat)
        { blocks := [some [0, 0, 0]] } =
      Except.ok { blocks := [some [33 / 10, 0, 0]] } ∧
    MyArray.assign_index { _data := Pointer.elem 0 0, _size := 3 } 1 (22 / 10 : Rat)
        { blocks := [some [33 / 10, 0, 0]] } =
      Except.ok { blocks := [some [33 / 10, 22 / 10, 0]] } ∧
    MyArray.assign_index { _data := Pointer.elem 0 0, _size := 3 } 2 (41 / 10 : Rat)
        { blocks := [some [33 / 10, 22 / 10, 0]] } =
      Except.ok { blocks := [some [33 / 10, 22 / 10, 41 / 10]] } ∧
    MyArray.valid { _data := Pointer.elem 0 0, _size := 3 }
      ({ blocks := [some [33 / 10, 22 / 10, 41 / 10]] } : Heap Rat) ∧
    (∃ xs : List Rat,
      xs.length = MyArray.size { _data := Pointer.elem 0 0, _size := 3 } ∧
      (∀ (i : Nat) (hi : i < xs.length),
        MyArray.index { _data := Pointer.elem 0 0, _size := 3 } i
          ({ blocks := [some [33 / 10, 22 / 10, 41 / 10]] } : Heap Rat) =
            Except.ok (xs.get ⟨i, hi⟩)) ∧
      ∀ fuel, MyArray.size { _data := Pointer.elem 0 0, _size := 3 } < fuel →
        copy fuel (MyArray.begin { _data := Pointer.elem 0 0, _size := 3 })
            (MyArray.end_ { _data := Pointer.elem 0 0, _size := 3 }) (inserter [])
            ({ blocks := [some [33 / 10, 22 / 10, 41 / 10]] } : Heap Rat) =
          some (Except.ok { container := xs, iter := xs.length })) ∧
    copy 4 (MyArray.begin { _data := Pointer.elem 0 0, _size := 3 })
        (MyArray.end_ { _data := Pointer.elem 0 0, _size := 3 }) (inserter [])
        ({ blocks := [some [33 / 10, 22 / 10, 41 / 10]] } : Heap Rat) =
      some (Except.ok { container := [33 / 10, 22 / 10, 41 / 10], iter := 3 }) :=
  ⟨rfl, rfl, rfl, rfl, Or.inr ⟨0, [33 / 10, 22 / 10, 41 / 10], rfl, rfl, rfl⟩,
    C10_copy_preserves_order { _data := Pointer.elem 0 0, _size := 3 }
      ({ blocks := [some [33 / 10, 22 / 10, 41 / 10]] } : Heap Rat)
      (Or.inr ⟨0, [33 / 10, 22 / 10, 41 / 10], rfl, rfl, rfl⟩),
    rfl⟩

/-! ## C11: copy assignment -/

/-- C11 at the failing input `a = b` with `a.size() == 1` and `b.size() == 2`
(both arrays satisfy the class invariant): the copy assignment never assigns
`_size`, so afterwards `a.size()` is still 1 while `b.size()` is 2, `a[0]` is
`b[0]`, and `a[1]` fails its assertion although `b[1]` is 7.  The opposite
assignment `b = a` reads two elements from the one-element buffer of `a`. -/
theorem C11_copy_assign_keeps_old_size :
    (two_arrays.objects 0).valid two_arrays.heap ∧
    (two_arrays.objects 1).valid two_arrays.heap ∧
    (two_arrays.objects 0).size = 1 ∧ (two_arrays.objects 1).size = 2 ∧
    (MyArray.copy_assign 0 1 two_arrays).map
        (fun m => ((m.objects 0).size, (m.objects 1).size)) = Except.ok (1, 2) ∧
    (MyArray.copy_assign 0 1 two_arrays).map
        (fun m => ((m.objects 0).index 0 m.heap, (m.objects 1).index 0 m.heap)) =
      Except.ok (Except.ok 5, Except.ok 5) ∧
    (MyArray.copy_assign 0 1 two_arrays).map
        (fun m => ((m.objects 0).index 1 m.heap, (m.objects 1).index 1 m.heap)) =
      Except.ok (Except.error Fault.assertion_failed, Except.ok 7) ∧
    (MyArray.copy_assign 1 0 two_arrays).map (fun _ => ()) =
      Except.error Fault.invalid_access :=
  ⟨Or.inr ⟨0, [0], rfl, rfl, rfl⟩, Or.inr ⟨1, [5, 7], rfl, rfl, rfl⟩, rfl, rfl,
    by decide, by decide, by decide, by decide⟩

/-! ## C13: move construction and move assignment -/

/-- Move assignment between two distinct objects whose buffers are distinct
live arrays (or null) transfers the contents: the destination takes over the
size and every element of the source, and the source is left with `size() == 0`
and `begin() == end()`. -/
theorem move_assign_transfers {T : Type} (this other : Nat) (m : Memory T)
    (hne : other ≠ this) (hthis : (m.objects this).valid m.heap)
    (hother : (m.objects other).valid m.heap)
    (hdisj : (m.objects this)._data ≠ (m.objects other)._data ∨
      (m.objects other)._data = Pointer.nullptr) :
    ∃ m1 : Memory T,
      MyArray.move_assign this other m = Except.ok m1 ∧
      (m1.objects this).size = (m.objects other).size ∧
      (∀ i, (m1.objects this).index i m1.heap = (m.objects other).index i m.heap) ∧
      (m1.objects other).size = 0 ∧
      iterator.eq (m1.objects other).begin (m1.objects other).end_ = true := by
  have hne2 : this ≠ other := fun e => hne e.symm
  have hobj : ∀ h1 : Heap T,
      (MyArray.take this other { m with heap := h1 }).objects this = m.objects other ∧
      (MyArray.take this other { m with heap := h1 }).objects other =
        { _data := Pointer.nullptr, _size := 0 } ∧
      (MyArray.take this other { m with heap := h1 }).heap = h1 := by
    intro h1
    simp [MyArray.take, Memory.set_data, Memory.set_size, hne, hne2]
  rcases hthis with ⟨hnull, _⟩ | ⟨b, xs, hdata, hblock, _⟩
  · refine ⟨MyArray.take this other { m with heap := m.heap }, ?_, ?_, ?_, ?_, ?_⟩
    · simp [MyArray.move_assign, hne, hnull, Heap.delete_array]
    · rw [(hobj m.heap).1]
    · intro i
      rw [(hobj m.heap).1, (hobj m.heap).2.2]
    · rw [(hobj m.heap).2.1]
      rfl
    · rw [(hobj m.heap).2.1]
      rfl
  · refine ⟨MyArray.take this other { m with heap := { blocks := m.heap.blocks.set b none } },
      ?_, ?_, ?_, ?_, ?_⟩
    · simp [MyArray.move_assign, hne, hdata, Heap.delete_array, hblock]
    · rw [(hobj _).1]
    · intro i
      rw [(hobj _).1, (hobj _).2.2]
      rcases hother with ⟨onull, osize⟩ | ⟨c, ys, odata, oblock, _⟩
      · simp [MyArray.index, osize]
      · have hbc : b ≠ c := by
          rintro rfl
          rcases hdisj with hd | hd
          · exact hd (hdata.trans odata.symm)
          · rw [odata] at hd
            cases hd
        simp [MyArray.index, odata, Pointer.add, Heap.read, List.getElem?_set_ne hbc]
    · rw [(hobj _).2.1]
      rfl
    · rw [(hobj _).2.1]
      rfl

/-- C13 at the failing input `MyArray<int> c(std::move(b))`: the move
constructor runs `delete[] _data` on the uninitialised `_data` of `c`.  When
that member holds a pointer to no array the deletion is invalid; when it holds
the address of the buffer of `b`, that buffer is released before `c` takes it
over, so `c` has size 2 and no readable element.  The move assignment `a =
std::move(b)` on the same state does transfer: `a` gets size 2 and the elements
5, 7, and `b` is left with size 0 and `begin() == end()`. -/
theorem C13_move_ctor_deletes_uninitialised :
    (MyArray.move_ctor 2 1 (Pointer.elem 9 0) two_arrays).map (fun _ => ()) =
      Except.error Fault.invalid_delete ∧
    (MyArray.move_ctor 2 1 (Pointer.elem 1 0) two_arrays).map
        (fun m => ((m.objects 2).size, (m.objects 2).index 0 m.heap,
          (m.objects 2).index 1 m.heap)) =
      Except.ok (2, Except.error Fault.invalid_access, Except.error Fault.invalid_access) ∧
    (MyArray.move_assign 0 1 two_arrays).map
        (fun m => ((m.objects 0).size, (m.objects 0).index 0 m.heap,
          (m.objects 0).index 1 m.heap, (m.objects 1).size,
          iterator.eq (m.objects 1).begin (m.objects 1).end_)) =
      Except.ok (2, Except.ok 5, Except.ok 7, 0, true) := by
  decide

/-! ## C14: self-assignment -/

/-- C14: for every array `a` (the object at any address `x` of any program
state), the copy assignment `a = a` and the move assignment `a = std::move(a)`
both return with the state as it was, so `a.size()` and every `a[i]` are
unchanged. -/
theorem C14_self_assign_noop {T : Type} [Inhabited T] (x : Nat) (m : Memory T) :
    MyArray.copy_assign x x m = Except.ok m ∧
    MyArray.move_assign x x m = Except.ok m ∧
    ∃ m1 m2 : Memory T,
      MyArray.copy_assign x x m = Except.ok m1 ∧
      MyArray.move_assign x x m = Except.ok m2 ∧
      (m1.objects x).size = (m.objects x).size ∧
      (m2.objects x).size = (m.objects x).size ∧
      (∀ i, (m1.objects x).index i m1.heap = (m.objects x).index i m.heap) ∧
      (∀ i, (m2.objects x).index i m2.heap = (m.objects x).index i m.heap) := by
  have hc : MyArray.copy_assign x x m = Except.ok m := by simp [MyArray.copy_assign]
  have hm : MyArray.move_assign x x m = Except.ok m := by simp [MyArray.move_assign]
  exact ⟨hc, hm, m, m, hc, hm, rfl, rfl, fun _ => rfl, fun _ => rfl⟩

/-! ## C15: indexed access -/

/-- C15: on an array satisfying its class invariant, for every `i < size()`
both forms of `a[i]` pass the assertion: the read returns the element stored at
`_data + i`, and a write `a[i] = v` succeeds and is read back as `v`; for every
`i >= size()` (so for every index when the array is empty) the read and the
write fail the assertion and return no element. -/
theorem C15_index_guard {T : Type} (a : MyArray) (h : Heap T) (hv : a.valid h) (i : Nat) :
    (i < a.size →
      (∃ v : T, a.index i h = Except.ok v ∧ h.read (a._data.add i) = some v) ∧
      ∀ v : T, ∃ h1 : Heap T,
        a.assign_index i v h = Except.ok h1 ∧ a.index i h1 = Except.ok v) ∧
    (a.size ≤ i →
      a.index i h = Except.error Fault.assertion_failed ∧
      ∀ v : T, a.assign_index i v h = Except.error Fault.assertion_failed) ∧
    (a.size = 0 → a.index i h = Except.error Fault.assertion_failed) := by
  refine ⟨?_, ?_, ?_⟩
  · intro hi
    rcases hv with ⟨_, hsize⟩ | ⟨b, xs, hdata, hblock, hlen⟩
    · simp [MyArray.size, hsize] at hi
    · have hi1 : i < a._size := hi
      have hi2 : i < xs.length := by omega
      have hb : b < h.blocks.length := by
        by_contra hnot
        rw [List.getElem?_eq_none (by omega)] at hblock
        cases hblock
      refine ⟨⟨xs.get ⟨i, hi2⟩, index_of_block a h b xs hdata hblock hlen i hi2, ?_⟩, ?_⟩
      · simp [hdata, Pointer.add, Heap.read, hblock, List.getElem?_eq_getElem hi2]
      · intro v
        refine ⟨{ blocks := h.blocks.set b (some (xs.set i v)) }, ?_, ?_⟩
        · simp [MyArray.assign_index, hi1, hdata, Pointer.add, Heap.write, hblock, hi2]
        · simp [MyArray.index, hi1, hdata, Pointer.add, Heap.read, hb, hi2]
  · intro hi
    have hnot : ¬ i < a._size := by
      simp only [MyArray.size] at hi
      omega
    simp [MyArray.index, MyArray.assign_index, hnot]
  · intro h0
    have hnot : ¬ i < a._size := by
      simp only [MyArray.size] at h0
      omega
    simp [MyArray.index, hnot]

/-- The array `b` of size 2 holding 5, 7: `b[1]` is 7 and `b[2]` fails the
assertion, an instance of C15. -/
theorem C15_index_guard_witness :
    (two_arrays.objects 1).valid two_arrays.heap ∧
    (((∃ v : Int, (two_arrays.objects 1).index 1 two_arrays.heap = Except.ok v ∧
          two_arrays.heap.read ((two_arrays.objects 1)._data.add 1) = some v) ∧
        ∀ v : Int, ∃ h1 : Heap Int,
          (two_arrays.objects 1).assign_index 1 v two_arrays.heap = Except.ok h1 ∧
            (two_arrays.objects 1).index 1 h1 = Except.ok v) ∧
      (two_arrays.objects 1).index 1 two_arrays.heap = Except.ok 7) ∧
    ((two_arrays.objects 1).index 2 two_arrays.heap = Except.error Fault.assertion_failed ∧
      ∀ v : Int, (two_arrays.objects 1).assign_index 2 v two_arrays.heap =
        Except.error Fault.assertion_failed) :=
  ⟨Or.inr ⟨1, [5, 7], rfl, rfl, rfl⟩,
    ⟨(C15_index_guard (two_arrays.objects 1) two_arrays.heap
        (Or.inr ⟨1, [5, 7], rfl, rfl, rfl⟩) 1).1 (by decide), by decide⟩,
    (C15_index_guard (two_arrays.objects 1) two_arrays.heap
      (Or.inr ⟨1, [5, 7], rfl, rfl, rfl⟩) 2).2.1 (by decide)⟩

end CustomContainer

namespace NumericRange

/-! ## Lemmas on repeated advance -/

/-- A cursor is null exactly when the range it came from is exhausted: this
holds for `begin()` and is kept by every successful `++`. -/
theorem advance_sync {I : Type} [Increment I] :
    ∀ (k : Nat) (it it1 : iterator) (r r1 : numeric_range I),
      (it.range = none ↔ r.at_end = true) →
      iterator.advance k it r = (Except.ok it1, r1) →
      (it1.range = none ↔ r1.at_end = true) := by
  intro k
  induction k with
  | zero =>
    intro it it1 r r1 hs h
    simp only [iterator.advance, Prod.mk.injEq, Except.ok.injEq] at h
    obtain ⟨rfl, rfl⟩ := h
    exact hs
  | succ k ih =>
    intro it it1 r r1 _ h
    cases hrange : it.range with
    | none => simp [iterator.advance, iterator.preinc, hrange] at h
    | some u =>
      simp only [iterator.advance, iterator.preinc, hrange] at h
      refine ih _ it1 _ r1 ?_ h
      by_cases he : ({ r with current := Increment.call r.inc r.current } :
          numeric_range I).at_end = true
      · simp [iterator.check_done, he]
      · simp [iterator.check_done, he, hrange]

/-- The cursor `begin()` is null exactly when the range is exhausted. -/
theorem begin_sync {I : Type} (r : numeric_range I) :
    r.begin.range = none ↔ r.at_end = true := by
  by_cases he : r.at_end = true
  · simp [numeric_range.begin, iterator.ctor, iterator.check_done, he]
  · simp [numeric_range.begin, iterator.ctor, iterator.check_done, he]

/-- After `k` successful advances under the policy `IncrementBy`, the current
value has moved by `k * delta` and nothing else in the range has changed. -/
theorem advance_current :
    ∀ (k : Nat) (it it1 : iterator) (r r1 : numeric_range IncrementBy),
      iterator.advance k it r = (Except.ok it1, r1) →
      r1.current = r.current + (k : Int) * r.inc.delta ∧ r1.final = r.final ∧
        r1.inc = r.inc ∧ r1.dir = r.dir := by
  intro k
  induction k with
  | zero =>
    intro it it1 r r1 h
    simp only [iterator.advance, Prod.mk.injEq, Except.ok.injEq] at h
    obtain ⟨_, rfl⟩ := h
    simp
  | succ k ih =>
    intro it it1 r r1 h
    cases hrange : it.range with
    | none => simp [iterator.advance, iterator.preinc, hrange] at h
    | some u =>
      simp only [iterator.advance, iterator.preinc, hrange] at h
      obtain ⟨hc, hf, hi, hd⟩ := ih _ it1 _ r1 h
      refine ⟨?_, hf, hi, hd⟩
      rw [hc]
      simp only [Increment.call]
      push_cast
      ring

/-! ## C16: shared progress -/

/-- C16: let `k` advances from `begin()` of `range(from, to, delta)` succeed.
Then the range's own current value is `from + k * delta`; every cursor that
points to the range (one obtained before the advances as much as a fresh
`begin()` while the range is not exhausted) dereferences to that value; and
once the advanced cursor equals `end()`, a fresh `begin()` equals `end()` too:
the traversal cannot be restarted. -/
theorem C16_shared_progress (from_ to_ delta : Int) (r0 r : numeric_range IncrementBy)
    (k : Nat) (it : iterator) (hr : range3 from_ to_ delta = Except.ok r0)
    (hadv : iterator.advance k r0.begin r0 = (Except.ok it, r)) :
    r.current = from_ + (k : Int) * delta ∧
    (∀ c : iterator, c.range = some () → c.deref r = Except.ok (from_ + (k : Int) * delta)) ∧
    (r.at_end = false →
      r.begin.range = some () ∧ r.begin.deref r = Except.ok (from_ + (k : Int) * delta)) ∧
    (iterator.eq it r.end_ = true → iterator.eq r.begin r.end_ = true) := by
  have hr0 : r0.current = from_ ∧ r0.inc.delta = delta := by
    unfold range3 at hr
    split at hr
    · cases hr
    · simp only [Except.ok.injEq] at hr
      subst hr
      exact ⟨rfl, rfl⟩
  have hcur : r.current = from_ + (k : Int) * delta := by
    have := (advance_current k _ it r0 r hadv).1
    rw [this, hr0.1, hr0.2]
  have hderef : ∀ c : iterator, c.range = some () →
      c.deref r = Except.ok (from_ + (k : Int) * delta) := by
    intro c hc
    simp [iterator.deref, hc, hcur]
  refine ⟨hcur, hderef, ?_, ?_⟩
  · intro hne
    have hb : r.begin.range = some () := by
      simp [numeric_range.begin, iterator.ctor, iterator.check_done, hne]
    exact ⟨hb, hderef _ hb⟩
  · intro hend
    have hnull : it.range = none := by
      simpa [iterator.eq, numeric_range.end_, iterator.ctor] using hend
    have hat : r.at_end = true := (advance_sync k _ it r0 r (begin_sync r0) hadv).mp hnull
    simp [iterator.eq, numeric_range.begin, numeric_range.end_, iterator.ctor,
      iterator.check_done, hat]

/-- Two advances on `range(0, 10, 3)` leave the current value 6 for every
cursor, an instance of C16. -/
theorem C16_shared_progress_witness :
    range3 0 10 3 = Except.ok (numeric_range.ctor4 0 10 (IncrementBy.mk 3) direction.increasing) ∧
    iterator.advance 2
        (numeric_range.ctor4 0 10 (IncrementBy.mk 3) direction.increasing).begin
        (numeric_range.ctor4 0 10 (IncrementBy.mk 3) direction.increasing) =
      (Except.ok (iterator.mk (some ())),
        numeric_range.ctor4 6 10 (IncrementBy.mk 3) direction.increasing) ∧
    ((numeric_range.ctor4 6 10 (IncrementBy.mk 3) direction.increasing).current =
        0 + ((2 : Nat) : Int) * 3 ∧
      (∀ c : iterator, c.range = some () →
        c.deref (numeric_range.ctor4 6 10 (IncrementBy.mk 3) direction.increasing) =
          Except.ok (0 + ((2 : Nat) : Int) * 3)) ∧
      ((numeric_range.ctor4 6 10 (IncrementBy.mk 3) direction.increasing).at_end = false →
        (numeric_range.ctor4 6 10 (IncrementBy.mk 3) direction.increasing).begin.range =
            some () ∧
          (numeric_range.ctor4 6 10 (IncrementBy.mk 3) direction.increasing).begin.deref
              (numeric_range.ctor4 6 10 (IncrementBy.mk 3) direction.increasing) =
            Except.ok (0 + ((2 : Nat) : Int) * 3)) ∧
      (iterator.eq (iterator.mk (some ()))
          (numeric_range.ctor4 6 10 (IncrementBy.mk 3) direction.increasing).end_ = true →
        iterator.eq (numeric_range.ctor4 6 10 (IncrementBy.mk 3) direction.increasing).begin
          (numeric_range.ctor4 6 10 (IncrementBy.mk 3) direction.increasing).end_ = true)) ∧
    iterator.advance 4
        (numeric_range.ctor4 0 10 (IncrementBy.mk 3) direction.increasing).begin
        (numeric_range.ctor4 0 10 (IncrementBy.mk 3) direction.increasing) =
      (Except.ok (iterator.mk none),
        numeric_range.ctor4 12 10 (IncrementBy.mk 3) direction.increasing) ∧
    iterator.eq (numeric_range.ctor4 12 10 (IncrementBy.mk 3) direction.increasing).begin
      (numeric_range.ctor4 12 10 (IncrementBy.mk 3) direction.increasing).end_ = true :=
  ⟨by decide, by decide,
    C16_shared_progress 0 10 3
      (numeric_range.ctor4 0 10 (IncrementBy.mk 3) direction.increasing)
      (numeric_range.ctor4 6 10 (IncrementBy.mk 3) direction.increasing) 2
      (iterator.mk (some ())) (by decide) (by decide),
    by decide, by decide⟩

/-! ## C17: post-increment -/

/-- On a cursor that points to its range, `it++` returns a proxy holding the
value the cursor had before the call, and leaves cursor and range exactly as
`++it` does. -/
theorem postinc_of_not_end {I : Type} [Increment I] (it : iterator) (r : numeric_range I)
    (hit : it.range = some ()) :
    ∃ it1 : iterator,
      it.preinc r = (Except.ok it1, (it.preinc r).2) ∧
      it.postinc r = (Except.ok ({ value := r.current }, it1), (it.preinc r).2) ∧
      it.deref r = Except.ok (postinc_return.deref { value := r.current }) := by
  refine ⟨it.check_done { r with current := Increment.call r.inc r.current }, ?_, ?_, ?_⟩
  · simp [iterator.preinc, hit]
  · simp [iterator.postinc, iterator.deref, iterator.preinc, hit]
  · simp [iterator.deref, hit, postinc_return.deref]

/-- C17 at the failing input `it = range(0).begin(); it++`: the range is empty,
so `it` equals `end()`; `++it` throws
`std::runtime_error("Increment a past-the-end iterator")`, but `it++` first
evaluates `**this` through the null `range` pointer and never reaches that
throw.  On the cursors of `range(5)`, which are not at the end, the loop over
`*it++` of `main` prints 0, 1, 2, 3, 4. -/
theorem C17_postinc_at_end_null_dereference :
    range1 0 = Except.ok (numeric_range.ctor2 0 0) ∧
    iterator.eq (numeric_range.ctor2 0 0).begin (numeric_range.ctor2 0 0).end_ = true ∧
    iterator.preinc (numeric_range.ctor2 0 0).begin (numeric_range.ctor2 0 0) =
      (Except.error (Fault.runtime_error "Increment a past-the-end iterator"),
        numeric_range.ctor2 0 0) ∧
    iterator.postinc (numeric_range.ctor2 0 0).begin (numeric_range.ctor2 0 0) =
      (Except.error Fault.null_dereference, numeric_range.ctor2 0 0) ∧
    range1 5 = Except.ok (numeric_range.ctor2 0 5) ∧
    postinc_loop 6 (numeric_range.ctor2 0 5).begin (numeric_range.ctor2 0 5) =
      some (Except.ok [0, 1, 2, 3, 4]) := by
  decide

/-! ## C18: termination of `range(from, to, delta)` -/

/-- The number of advances: `k` is below `max(0, ceil((to - from) / delta))`
exactly when `from + k * delta` lies strictly before the bound. -/
theorem lt_ceil_count_iff (from_ to_ delta : Int) (hdelta : delta ≠ 0) (k : Nat) :
    k < (Int.ceil (((to_ - from_ : Int) : ℚ) / (delta : ℚ))).toNat ↔
      (if delta > 0 then from_ + (k : Int) * delta < to_
        else from_ + (k : Int) * delta > to_) := by
  have h1 : k < (Int.ceil (((to_ - from_ : Int) : ℚ) / (delta : ℚ))).toNat ↔
      ((k : Int) : ℚ) < ((to_ - from_ : Int) : ℚ) / (delta : ℚ) := by
    rw [← Int.lt_ceil]
    omega
  rw [h1]
  by_cases hpos : delta > 0
  · have hq : (0 : ℚ) < (delta : ℚ) := by exact_mod_cast hpos
    rw [lt_div_iff₀ hq]
    simp only [hpos, if_true]
    constructor
    · intro h
      have : (k : Int) * delta < to_ - from_ := by exact_mod_cast h
      omega
    · intro h
      have : (k : Int) * delta < to_ - from_ := by omega
      exact_mod_cast this
  · have hneg : delta < 0 := by omega
    have hq : (delta : ℚ) < 0 := by exact_mod_cast hneg
    rw [lt_div_iff_of_neg hq]
    simp only [hpos, if_false]
    constructor
    · intro h
      have : to_ - from_ < (k : Int) * delta := by exact_mod_cast h
      omega
    · intro h
      have : to_ - from_ < (k : Int) * delta := by omega
      exact_mod_cast this

/-- As long as every earlier term lies strictly before the bound, `k` advances
from `begin()` of a range built by `range(cur, to, delta)` all succeed and lead
to the `begin()` cursor of the range whose current value is `cur + k * delta`. -/
theorem advance_begin_range3 (to_ delta : Int) :
    ∀ (k : Nat) (cur : Int),
      (∀ j : Nat, j < k →
        (if delta > 0 then cur + (j : Int) * delta < to_ else cur + (j : Int) * delta > to_)) →
      iterator.advance k
          (numeric_range.ctor4 cur to_ (IncrementBy.mk delta)
            (if delta > 0 then direction.increasing else direction.decreasing)).begin
          (numeric_range.ctor4 cur to_ (IncrementBy.mk delta)
            (if delta > 0 then direction.increasing else direction.decreasing)) =
        (Except.ok
          (numeric_range.ctor4 (cur + (k : Int) * delta) to_ (IncrementBy.mk delta)
            (if delta > 0 then direction.increasing else direction.decreasing)).begin,
          numeric_range.ctor4 (cur + (k : Int) * delta) to_ (IncrementBy.mk delta)
            (if delta > 0 then direction.increasing else direction.decreasing)) := by
  intro k
  induction k with
  | zero =>
    intro cur _
    simp [iterator.advance]
  | succ k ih =>
    intro cur hbefore
    have h0 := hbefore 0 (Nat.succ_pos k)
    have hrest : ∀ j : Nat, j < k →
        (if delta > 0 then cur + delta + (j : Int) * delta < to_
          else cur + delta + (j : Int) * delta > to_) := by
      intro j hj
      have := hbefore (j + 1) (by omega)
      have e : cur + ((j + 1 : Nat) : Int) * delta = cur + delta + (j : Int) * delta := by
        push_cast; ring
      rwa [e] at this
    have hstep := ih (cur + delta) hrest
    have e : cur + delta + (k : Int) * delta = cur + ((k + 1 : Nat) : Int) * delta := by
      push_cast; ring
    rw [e] at hstep
    rw [← hstep]
    by_cases hpos : delta > 0
    · simp only [hpos, if_true, Nat.cast_zero, zero_mul, add_zero] at h0 ⊢
      have hn : ¬ to_ ≤ cur := by omega
      simp [iterator.advance, iterator.preinc, numeric_range.begin, iterator.ctor,
        iterator.check_done, numeric_range.at_end, numeric_range.ctor4, Increment.call, hn]
    · simp only [hpos, if_false, Nat.cast_zero, zero_mul, add_zero] at h0 ⊢
      have hn : ¬ cur ≤ to_ := by omega
      simp [iterator.advance, iterator.preinc, numeric_range.begin, iterator.ctor,
        iterator.check_done, numeric_range.at_end, numeric_range.ctor4, Increment.call, hn]

/-- The `begin()` cursor of a range built by `range(cur, to, delta)` equals
`end()` exactly when `cur` is not strictly before the bound. -/
theorem begin_eq_end_range3 (to_ delta cur : Int) :
    iterator.eq
        (numeric_range.ctor4 cur to_ (IncrementBy.mk delta)
          (if delta > 0 then direction.increasing else direction.decreasing)).begin
        (numeric_range.ctor4 cur to_ (IncrementBy.mk delta)
          (if delta > 0 then direction.increasing else direction.decreasing)).end_ = true ↔
      ¬ (if delta > 0 then cur < to_ else cur > to_) := by
  by_cases hpos : delta > 0
  · by_cases hc : cur < to_
    · have hn : ¬ to_ ≤ cur := by omega
      simp [iterator.eq, numeric_range.begin, numeric_range.end_, iterator.ctor,
        iterator.check_done, numeric_range.at_end, numeric_range.ctor4, hpos, hc, hn]
    · have hn : to_ ≤ cur := by omega
      simp [iterator.eq, numeric_range.begin, numeric_range.end_, iterator.ctor,
        iterator.check_done, numeric_range.at_end, numeric_range.ctor4, hpos, hn]
  · by_cases hc : cur > to_
    · have hn : ¬ cur ≤ to_ := by omega
      simp [iterator.eq, numeric_range.begin, numeric_range.end_, iterator.ctor,
        iterator.check_done, numeric_range.at_end, numeric_range.ctor4, hpos, hc, hn]
    · have hn : cur ≤ to_ := by omega
      simp [iterator.eq, numeric_range.begin, numeric_range.end_, iterator.ctor,
        iterator.check_done, numeric_range.at_end, numeric_range.ctor4, hpos, hn]

/-- C18: for every nonzero `delta`, with
`N = max(0, ceil((to - from) / delta))`: each of the first `N` advances from
`begin()` of `range(from, to, delta)` succeeds, after `k <= N` advances the
current value is `from + k * delta`, and the cursor equals `end()` exactly when
`k = N`; `from + N * delta` is at or past the bound while every earlier term is
strictly before it; and the traversal loop ends for every step budget above
`N`, having yielded `N` values. -/
theorem C18_range3_terminates (from_ to_ delta : Int) (hdelta : delta ≠ 0) :
    ∃ (r0 : numeric_range IncrementBy) (N : Nat),
      range3 from_ to_ delta = Except.ok r0 ∧
      (N : Int) = max 0 (Int.ceil (((to_ - from_ : Int) : ℚ) / (delta : ℚ))) ∧
      (∀ k : Nat, k ≤ N → ∃ (it : iterator) (r : numeric_range IncrementBy),
          iterator.advance k r0.begin r0 = (Except.ok it, r) ∧
          r.current = from_ + (k : Int) * delta ∧
          (iterator.eq it r.end_ = true ↔ k = N)) ∧
      (if delta > 0 then to_ ≤ from_ + (N : Int) * delta
        else from_ + (N : Int) * delta ≤ to_) ∧
      (∀ k : Nat, k < N →
        (if delta > 0 then from_ + (k : Int) * delta < to_
          else from_ + (k : Int) * delta > to_)) ∧
      (∀ fuel, N < fuel →
        ∃ xs : List Int, range_for fuel r0 = some (Except.ok xs) ∧ xs.length = N) := by
  have hiff := lt_ceil_count_iff from_ to_ delta hdelta
  refine ⟨numeric_range.ctor4 from_ to_ (IncrementBy.mk delta)
      (if delta > 0 then direction.increasing else direction.decreasing),
    (Int.ceil (((to_ - from_ : Int) : ℚ) / (delta : ℚ))).toNat, ?_, ?_, ?_, ?_, ?_, ?_⟩
  · simp [range3, hdelta]
  · rw [Int.toNat_eq_max, max_comm]
  · intro k hk
    refine ⟨_, _, advance_begin_range3 to_ delta k from_
      (fun j hj => (hiff j).mp (by omega)), rfl, ?_⟩
    rw [begin_eq_end_range3, ← hiff k]
    omega
  · have hN := (hiff (Int.ceil (((to_ - from_ : Int) : ℚ) / (delta : ℚ))).toNat).not.mp
      (lt_irrefl _)
    by_cases hpos : delta > 0
    · simp only [hpos, if_true] at hN ⊢
      omega
    · simp only [hpos, if_false] at hN ⊢
      omega
  · intro k hk
    exact (hiff k).mp hk
  · intro fuel hf
    by_cases hpos : delta > 0
    · obtain ⟨n, hn, hrun⟩ := range_for_increasing (IncrementBy.mk delta) delta hpos
        (fun _ => rfl) to_ (to_ - from_).toNat from_ le_rfl
      have hcount : n = (Int.ceil (((to_ - from_ : Int) : ℚ) / (delta : ℚ))).toNat := by
        have h1 := hn n
        have h2 := hn (Int.ceil (((to_ - from_ : Int) : ℚ) / (delta : ℚ))).toNat
        have h3 := hiff n
        have h4 := hiff (Int.ceil (((to_ - from_ : Int) : ℚ) / (delta : ℚ))).toNat
        simp only [hpos, if_true] at h3 h4
        omega
      refine ⟨(List.range n).map (fun k : Nat => from_ + (k : Int) * delta), ?_, ?_⟩
      · simpa [hpos, numeric_range.ctor4] using hrun fuel (by omega)
      · simp [hcount]
    · have hneg : delta < 0 := by omega
      obtain ⟨n, hn, hrun⟩ := range_for_decreasing (IncrementBy.mk delta) delta hneg
        (fun _ => rfl) to_ (from_ - to_).toNat from_ le_rfl
      have hcount : n = (Int.ceil (((to_ - from_ : Int) : ℚ) / (delta : ℚ))).toNat := by
        have h1 := hn n
        have h2 := hn (Int.ceil (((to_ - from_ : Int) : ℚ) / (delta : ℚ))).toNat
        have h3 := hiff n
        have h4 := hiff (Int.ceil (((to_ - from_ : Int) : ℚ) / (delta : ℚ))).toNat
        simp only [hpos, if_false] at h3 h4
        omega
      refine ⟨(List.range n).map (fun k : Nat => from_ + (k : Int) * delta), ?_, ?_⟩
      · simpa [hpos, numeric_range.ctor4] using hrun fuel (by omega)
      · simp [hcount]

/-- The range `range(0, 10, 3)` of `main` ends after `ceil(10 / 3) = 4`
advances with current value 12, an instance of C18. -/
theorem C18_range3_terminates_witness :
    ((3 : Int) ≠ 0 ∧
      ∃ (r0 : numeric_range IncrementBy) (N : Nat),
        range3 0 10 3 = Except.ok r0 ∧
        (N : Int) = max 0 (Int.ceil ((((10 : Int) - 0 : Int) : ℚ) / ((3 : Int) : ℚ))) ∧
        (∀ k : Nat, k ≤ N → ∃ (it : iterator) (r : numeric_range IncrementBy),
            iterator.advance k r0.begin r0 = (Except.ok it, r) ∧
            r.current = 0 + (k : Int) * 3 ∧
            (iterator.eq it r.end_ = true ↔ k = N)) ∧
        (if (3 : Int) > 0 then (10 : Int) ≤ 0 + (N : Int) * 3
          else 0 + (N : Int) * 3 ≤ (10 : Int)) ∧
        (∀ k : Nat, k < N →
          (if (3 : Int) > 0 then 0 + (k : Int) * 3 < (10 : Int)
            else 0 + (k : Int) * 3 > (10 : Int))) ∧
        (∀ fuel, N < fuel →
          ∃ xs : List Int, range_for fuel r0 = some (Except.ok xs) ∧ xs.length = N)) ∧
    iterator.advance 4
        (numeric_range.ctor4 0 10 (IncrementBy.mk 3) direction.increasing).begin
        (numeric_range.ctor4 0 10 (IncrementBy.mk 3) direction.increasing) =
      (Except.ok (iterator.mk none),
        numeric_range.ctor4 12 10 (IncrementBy.mk 3) direction.increasing) ∧
    iterator.advance 3
        (numeric_range.ctor4 0 10 (IncrementBy.mk 3) direction.increasing).begin
        (numeric_range.ctor4 0 10 (IncrementBy.mk 3) direction.increasing) =
      (Except.ok (iterator.mk (some ())),
        numeric_range.ctor4 9 10 (IncrementBy.mk 3) direction.increasing) :=
  ⟨⟨by decide, C18_range3_terminates 0 10 3 (by decide)⟩, by decide, by decide⟩

/-! ## C19: the exhausted-advance check is per cursor -/

/-- C19: on `range(0, 2)`, take two cursors `c1`, `c2` from `begin()` before any
advance.  Two advances of `c2` succeed and make it equal to `end()`, leaving the
current value 2.  Now the boundary predicate holds, yet `c1` still differs from
`end()`; advancing `c1` throws nothing, applies the step once more so that the
current value 3 is past the bound 2, and leaves `c1` equal to `end()`. -/
theorem C19_exhaustion_check_per_cursor :
    range2 0 2 = Except.ok (numeric_range.ctor2 0 2) ∧
    (numeric_range.ctor2 0 2).begin = iterator.mk (some ()) ∧
    iterator.advance 1 (iterator.mk (some ())) (numeric_range.ctor2 0 2) =
      (Except.ok (iterator.mk (some ())), numeric_range.ctor2 1 2) ∧
    iterator.advance 2 (iterator.mk (some ())) (numeric_range.ctor2 0 2) =
      (Except.ok (numeric_range.ctor2 2 2).end_, numeric_range.ctor2 2 2) ∧
    iterator.ne (iterator.mk (some ())) (numeric_range.ctor2 2 2).end_ = true ∧
    (numeric_range.ctor2 2 2).at_end = true ∧
    iterator.preinc (iterator.mk (some ())) (numeric_range.ctor2 2 2) =
      (Except.ok (numeric_range.ctor2 3 2).end_, numeric_range.ctor2 3 2) ∧
    (numeric_range.ctor2 3 2).current > (numeric_range.ctor2 3 2).final ∧
    iterator.eq (numeric_range.ctor2 3 2).end_ (numeric_range.ctor2 3 2).end_ = true := by
  decide

/-! ## C20: the three-argument constructor fixes the direction -/

/-- Below the bound 10, advancing a cursor on the increasing range with policy
`IncrementBy(-1)` succeeds and keeps the cursor on the range. -/
theorem advance_ctor3_down :
    ∀ (k : Nat) (cur : Int), cur < 10 →
      iterator.advance k (iterator.mk (some ()))
          (numeric_range.ctor3 cur 10 (IncrementBy.mk (-1))) =
        (Except.ok (iterator.mk (some ())),
          numeric_range.ctor3 (cur - (k : Int)) 10 (IncrementBy.mk (-1))) := by
  intro k
  induction k with
  | zero =>
    intro cur _
    simp [iterator.advance]
  | succ k ih =>
    intro cur hcur
    have hstep := ih (cur - 1) (by omega)
    have e : cur - 1 - (k : Int) = cur - ((k + 1 : Nat) : Int) := by
      push_cast; ring
    rw [e] at hstep
    rw [← hstep]
    have hn : ¬ (10 : Int) ≤ cur - 1 := by omega
    have e2 : cur + -1 = cur - 1 := by ring
    simp [iterator.advance, iterator.preinc, iterator.check_done, numeric_range.at_end,
      numeric_range.ctor3, Increment.call, hn, e2]

/-- Below the bound 10, the traversal loop on the increasing range with policy
`IncrementBy(-1)` uses up every step budget. -/
theorem for_loop_ctor3_down :
    ∀ (fuel : Nat) (cur : Int), cur < 10 →
      for_loop fuel (iterator.mk (some ())) (iterator.mk none)
        (numeric_range.ctor3 cur 10 (IncrementBy.mk (-1))) = none := by
  intro fuel
  induction fuel with
  | zero =>
    intro cur _
    rfl
  | succ fuel ih =>
    intro cur hcur
    have hstep := ih (cur - 1) (by omega)
    have hn : ¬ (10 : Int) ≤ cur - 1 := by omega
    have e2 : cur + -1 = cur - 1 := by ring
    simp only [numeric_range.ctor3] at hstep
    simp [for_loop, iterator.ne, iterator.eq, iterator.deref, iterator.preinc,
      iterator.check_done, numeric_range.at_end, numeric_range.ctor3, Increment.call, hn, e2,
      hstep]

/-- C20: the range `numeric_range<int, IncrementBy<int>>(0, 10,
IncrementBy<int>(-1))` has direction increasing; for every `k`, `k` advances
from `begin()` succeed, leave the current value `-k < 10` and a cursor that
differs from `end()`, and the traversal loop ends for no step budget; whereas
`range(0, 10, -1)` has direction decreasing and is empty from the start. -/
theorem C20_ctor3_direction_fixed :
    (numeric_range.ctor3 0 10 (IncrementBy.mk (-1))).dir = direction.increasing ∧
    (∀ k : Nat,
      iterator.advance k (numeric_range.ctor3 0 10 (IncrementBy.mk (-1))).begin
          (numeric_range.ctor3 0 10 (IncrementBy.mk (-1))) =
        (Except.ok (iterator.mk (some ())),
          numeric_range.ctor3 (-(k : Int)) 10 (IncrementBy.mk (-1))) ∧
      (numeric_range.ctor3 (-(k : Int)) 10 (IncrementBy.mk (-1))).current = -(k : Int) ∧
      -(k : Int) < 10 ∧
      (numeric_range.ctor3 (-(k : Int)) 10 (IncrementBy.mk (-1))).at_end = false ∧
      iterator.ne (iterator.mk (some ()))
        (numeric_range.ctor3 (-(k : Int)) 10 (IncrementBy.mk (-1))).end_ = true) ∧
    (∀ fuel : Nat, range_for fuel (numeric_range.ctor3 0 10 (IncrementBy.mk (-1))) = none) ∧
    range3 0 10 (-1) =
      Except.ok (numeric_range.ctor4 0 10 (IncrementBy.mk (-1)) direction.decreasing) ∧
    iterator.eq (numeric_range.ctor4 0 10 (IncrementBy.mk (-1)) direction.decreasing).begin
      (numeric_range.ctor4 0 10 (IncrementBy.mk (-1)) direction.decreasing).end_ = true ∧
    range_for_expr 1 (range3 0 10 (-1)) = some (Except.ok []) := by
  have hbegin : (numeric_range.ctor3 0 10 (IncrementBy.mk (-1))).begin =
      iterator.mk (some ()) := by decide
  refine ⟨rfl, ?_, ?_, by decide, by decide, by decide⟩
  · intro k
    have hadv := advance_ctor3_down k 0 (by decide)
    rw [zero_sub] at hadv
    have hlt : -(k : Int) < 10 := by omega
    have hn : ¬ (10 : Int) ≤ -(k : Int) := by omega
    refine ⟨by rw [hbegin]; exact hadv, rfl, hlt, ?_, ?_⟩
    · simp [numeric_range.at_end, numeric_range.ctor3, hn]
    · simp [iterator.ne, iterator.eq, numeric_range.end_, iterator.ctor]
  · intro fuel
    have := for_loop_ctor3_down fuel 0 (by decide)
    simpa [range_for, hbegin, numeric_range.end_, iterator.ctor] using this

end NumericRange
